import Mathlib

/-!
Verification of the job retrieval and ranking engine of the multi-agent
career-coaching system.  The Python modules `rag/load_jobs.py`,
`rag/retriever.py` and `graph/job_matcher_agent.py` are shallowly embedded
below: JSON values become an inductive type, dicts become association lists,
Python exceptions become `Except`, floating point numbers are idealised as
`ℚ` (or `ℝ` where square roots occur), and the external boundaries (HTTP,
the embedding service, `json.loads`, `str()`, SHA-1, BeautifulSoup) become
explicit oracle parameters that the theorems quantify over.
-/

namespace CareerCoach

/-! ### Python string primitives -/

/-- Characters treated as whitespace by Python `str.strip()` (ASCII part). -/
def pySpace (c : Char) : Bool :=
  c == ' ' || c == '\t' || c == '\n' || c == '\r' || c == '\u000B' || c == '\u000C'

/-- Python `s.lower()` (charwise; the data here is ASCII). -/
def strToLower (s : String) : String :=
  String.mk (s.toList.map Char.toLower)

/-- Python `s.strip()`. -/
def pyStrip (s : String) : String :=
  String.mk (((s.toList.dropWhile pySpace).reverse.dropWhile pySpace).reverse)

/-- Python `s.find(c)` for a single-character needle, as an `Option`
(`none` plays the role of `-1`). -/
def strFindChar (s : String) (c : Char) : Option Nat :=
  s.toList.findIdx? (fun d => d == c)

/-- Python `s.rfind(c)` for a single-character needle. -/
def strRfindChar (s : String) (c : Char) : Option Nat :=
  match s.toList.reverse.findIdx? (fun d => d == c) with
  | some i => some (s.toList.length - 1 - i)
  | none => none

/-- Python slice `s[a:b]` (for `0 ≤ a ≤ b`). -/
def strSlice (s : String) (a b : Nat) : String :=
  String.mk ((s.toList.drop a).take (b - a))

/-- Index of the first occurrence of `pat` in `s` (Python `in` / `find`). -/
def findSub (s pat : String) : Option Nat :=
  (List.range (s.toList.length + 1)).find?
    (fun i => ((s.toList.drop i).take pat.toList.length) == pat.toList)

/-- Index of the last occurrence of `pat` in `s` (Python `rfind`). -/
def rfindSub (s pat : String) : Option Nat :=
  match ((List.range (s.toList.length + 1)).filter
      (fun i => ((s.toList.drop i).take pat.toList.length) == pat.toList)) with
  | [] => none
  | l => l.getLast?

/-! ### JSON values and Python dict semantics

`Jv α` is a JSON value whose numbers live in `α` (`ℚ` for the exactly
representable data flowing through the pipeline, `ℝ` for the retriever
where cosine similarities appear).  A Python dict is an association list
with distinct keys, written `List (String × Jv α)`. -/

inductive Jv (α : Type) where
  | null
  | bool (b : Bool)
  | num (x : α)
  | str (s : String)
  | arr (elems : List (Jv α))
  | obj (fields : List (String × Jv α))

/-- Python `d.get(k)` (first binding; modelled dicts carry distinct keys). -/
def jget {α : Type} (d : List (String × Jv α)) (k : String) : Option (Jv α) :=
  (d.find? (fun p => p.1 == k)).map (fun p => p.2)

/-- Whether key `k` is present in dict `d`. -/
def hasKey {α : Type} (d : List (String × Jv α)) (k : String) : Bool :=
  (jget d k).isSome

/-- Python `d[k] = v`: overwrite in place when present, append otherwise. -/
def setKey {α : Type} (d : List (String × Jv α)) (k : String) (v : Jv α) :
    List (String × Jv α) :=
  if (d.find? (fun p => p.1 == k)).isSome then
    d.map (fun p => if p.1 == k then (p.1, v) else p)
  else d ++ [(k, v)]

/-- Python truthiness of a JSON value. -/
def truthy {α : Type} [DecidableEq α] [OfNat α 0] : Jv α → Bool
  | .null => false
  | .bool b => b
  | .num x => decide (¬ x = 0)
  | .str s => decide (¬ s = "")
  | .arr l => !l.isEmpty
  | .obj l => !l.isEmpty

/-- Whether a JSON value is hashable in Python (lists and dicts are not). -/
def hashable {α : Type} : Jv α → Bool
  | .arr _ => false
  | .obj _ => false
  | _ => true

/-- Python `==` on hashable scalar values (with the `True == 1` quirk). -/
def pyEqScalar {α : Type} [DecidableEq α] [OfNat α 0] [OfNat α 1] :
    Jv α → Jv α → Bool
  | .str a, .str b => a == b
  | .num a, .num b => decide (a = b)
  | .bool a, .bool b => a == b
  | .null, .null => true
  | .bool a, .num b => decide (b = (if a then (1 : α) else 0))
  | .num a, .bool b => decide (a = (if b then (1 : α) else 0))
  | _, _ => false

/-- Python `str(v)` / f-string interpolation: the identity on strings, an
oracle `pyStr` elsewhere. -/
def pyStrApp {α : Type} (pyStr : Jv α → String) : Jv α → String
  | .str s => s
  | v => pyStr v

/-- Python `j.get(k) or dflt`. -/
def getOrJv {α : Type} [DecidableEq α] [OfNat α 0] (j : List (String × Jv α))
    (k : String) (dflt : Jv α) : Jv α :=
  match jget j k with
  | some v => if truthy v then v else dflt
  | none => dflt

/-- Python `(x or "").strip()` where a truthy non-string raises
`AttributeError`. -/
def orEmptyStrip {α : Type} [DecidableEq α] [OfNat α 0] (v : Option (Jv α)) :
    Except String String :=
  match v with
  | none => .ok ""
  | some x =>
    if truthy x then
      match x with
      | .str s => .ok (pyStrip s)
      | _ => .error "AttributeError: strip"
    else .ok ""

/-- Python `None`-test for an optional JSON value (`json` maps `null` to
`None`, and `d.get(k)` yields `None` when `k` is absent). -/
def isNoneJv {α : Type} : Option (Jv α) → Bool
  | none => true
  | some .null => true
  | some _ => false

/-! ### `load_jobs.py`: query splitting, stable ids, cleaners, dedup

All JSON data in this module is exactly representable, so numbers are `ℚ`. -/

abbrev QJv := Jv ℚ

abbrev QDict := List (String × QJv)

/-- `_split_query_location`: split a query on the last occurrence of
`" in "` (case-insensitive) into a what/where pair. -/
def splitQueryLocation (q : String) : String × String :=
  let qs := pyStrip q
  match rfindSub (strToLower qs) " in " with
  | some idx => (pyStrip (strSlice qs 0 idx), pyStrip (strSlice qs (idx + 4) qs.toList.length))
  | none => (qs, "")

/-- `_stable_id_from_text`: the first 20 hex characters of a SHA-1 digest.
The digest itself is an external primitive, passed as the oracle `h`
(a real digest always has 40 characters). -/
def stableIdFromText (h : String → String) (text : String) : String :=
  String.mk ((h text).toList.take 20)

/-- Python `" ".join(parts)` over truthy parts followed by `.strip()`
(`join` raises `TypeError` on non-string elements). -/
def joinTruthyStrs (parts : List QJv) (sep : String) : Except String String := do
  let kept := parts.filter truthy
  let strs ← kept.mapM (fun v =>
    match v with
    | Jv.str s => Except.ok s
    | _ => Except.error "TypeError: join")
  return String.intercalate sep strs

/-- `(j.get(k) or \x7b\x7d).get("display_name") or ""` as in the Adzuna
cleaner (a truthy non-dict raises `AttributeError`). -/
def nestedDisplay (j : QDict) (k : String) : Except String QJv :=
  match getOrJv j k (.obj []) with
  | .obj fs =>
    .ok (match jget fs "display_name" with
      | some v => if truthy v then v else .str ""
      | none => .str "")
  | _ => .error "AttributeError: get"

/-- `_clean_jobs_adzuna`, one raw record (a dict).  `h` is the SHA-1 oracle
and `pyStr` the `str()` oracle for non-string values. -/
def cleanAdzunaOne (h : String → String) (pyStr : QJv → String) (j : QDict) :
    Except String QDict := do
  let redirect := getOrJv j "redirect_url" (.str "")
  let title := getOrJv j "title" (.str "")
  let company ← nestedDisplay j "company"
  let location ← nestedDisplay j "location"
  let description := getOrJv j "description" (.str "")
  let ct := getOrJv j "contract_time" (.str "")
  let cty := getOrJv j "contract_type" (.str "")
  let et ← joinTruthyStrs [ct, cty] " "
  let jobId :=
    match jget j "id" with
    | none =>
      "adzuna:" ++ stableIdFromText h
        (pyStrApp pyStr title ++ "|" ++ pyStrApp pyStr company ++ "|"
          ++ pyStrApp pyStr location ++ "|" ++ pyStrApp pyStr redirect)
    | some .null =>
      "adzuna:" ++ stableIdFromText h
        (pyStrApp pyStr title ++ "|" ++ pyStrApp pyStr company ++ "|"
          ++ pyStrApp pyStr location ++ "|" ++ pyStrApp pyStr redirect)
    | some v => "adzuna:" ++ pyStrApp pyStr v
  return [("job_id", .str jobId), ("title", title), ("company", company),
    ("location", location), ("employment_type", .str (pyStrip et)),
    ("publisher", .str "adzuna"), ("description", description)]

/-- `_clean_jobs_adzuna` over the raw list (a non-dict raw record raises
`AttributeError` at the first `.get`). -/
def cleanJobsAdzuna (h : String → String) (pyStr : QJv → String)
    (raws : List QJv) : Except String (List QDict) :=
  raws.mapM (fun r =>
    match r with
    | Jv.obj fs => cleanAdzunaOne h pyStr fs
    | _ => Except.error "AttributeError: get")

/-- `_clean_jobs_jsearch`, one raw record: records without a truthy
`job_id` are skipped (`none`). -/
def cleanJsearchOne (pyStr : QJv → String) (j : QDict) :
    Except String (Option QDict) :=
  let jid := (jget j "job_id").getD .null
  if truthy jid then do
    let title := getOrJv j "job_title" (.str "")
    let company := getOrJv j "employer_name" (.str "")
    let city := getOrJv j "job_city" (.str "")
    let st := getOrJv j "job_state" (.str "")
    let country := getOrJv j "job_country" (.str "")
    let location ← joinTruthyStrs [city, st, country] ", "
    let description := getOrJv j "job_description" (.str "")
    let et := getOrJv j "job_employment_type" (.str "")
    let publisher := getOrJv j "job_publisher" (.str "jsearch")
    return some [("job_id", .str (pyStrApp pyStr jid)), ("title", title),
      ("company", company), ("location", .str location),
      ("employment_type", et), ("publisher", publisher),
      ("description", description)]
  else .ok none

/-- `_clean_jobs_jsearch` over the raw list. -/
def cleanJobsJsearch (pyStr : QJv → String) (raws : List QJv) :
    Except String (List QDict) := do
  let opts ← raws.mapM (fun r =>
    match r with
    | Jv.obj fs => cleanJsearchOne pyStr fs
    | _ => Except.error "AttributeError: get")
  return opts.reduceOption

/-- The `job_id` value of a cleaned record (`Jv.null` when absent). -/
def jvId (r : QDict) : QJv :=
  (jget r "job_id").getD .null

/-- `_dedupe_jobs`, with the `seen` set threaded explicitly.  A record whose
id is falsy is dropped without hashing; a truthy unhashable id raises
`TypeError` at the `in seen` test. -/
def dedupeAux (seen : List QJv) : List QDict → Except String (List QDict)
  | [] => .ok []
  | j :: rest =>
    let v := jvId j
    if truthy v then
      if hashable v then
        if seen.any (fun u => pyEqScalar u v) then dedupeAux seen rest
        else do
          let out ← dedupeAux (v :: seen) rest
          return j :: out
      else .error "TypeError: unhashable"
    else dedupeAux seen rest

/-- `_dedupe_jobs`. -/
def dedupeJobs (jobs : List QDict) : Except String (List QDict) :=
  dedupeAux [] jobs

/-- The id of a record when it is a nonempty string, else `none` (the only
shape the cleaners produce). -/
def strIdOf (r : QDict) : Option String :=
  match jget r "job_id" with
  | some (.str s) => if s = "" then none else some s
  | _ => none

/-! ### `load_jobs.py`: the JSearch and Adzuna fetchers

`requests.get` is modelled as an oracle from request parameters to an
`HttpOut`: either a raised transport exception (timeout, connection error —
the call sits outside any `try` in the source) or a response carrying a
status code and an optional parsed JSON body (`none` models a body on which
`resp.json()` raises). -/

inductive HttpOut where
  | exn (msg : String)
  | resp (status : Nat) (body : Option QJv)

/-- A missing or empty credential string is falsy in Python. -/
def credMissing : Option String → Bool
  | none => true
  | some s => s == ""

/-- `data.get("data")` in the JSearch fetcher.  A non-dict body raises
`AttributeError` at `.get` (which also makes the subsequent
`isinstance(data, list)` branch of the source unreachable). -/
def jsearchItems (data : QJv) : Except String (Option QJv) :=
  match data with
  | .obj fs => .ok (jget fs "data")
  | _ => .error "AttributeError: get"

/-- `count = len(items or []); if items: all.extend(items)`: a falsy
`items` contributes nothing, a list extends, a string extends with its
characters, a dict with its keys, and `len` of a truthy number or boolean
raises `TypeError`. -/
def extendItems (acc : List QJv) (items : Option QJv) :
    Except String (List QJv) :=
  match items with
  | none => .ok acc
  | some v =>
    if truthy v then
      match v with
      | .arr xs => .ok (acc ++ xs)
      | .str s => .ok (acc ++ s.toList.map (fun c => Jv.str c.toString))
      | .obj fs => .ok (acc ++ fs.map (fun p => Jv.str p.1))
      | _ => .error "TypeError: len"
    else .ok acc

/-- Outcome of the nested fetch loops: keep looping, stop the whole fetch
early (the JSearch 401 `return`), or propagate an exception. -/
inductive FetchStep where
  | more (acc : List QJv)
  | stop (acc : List QJv)
  | fail (msg : String)

/-- Pages `1, …, n`. -/
def pageRange (n : Nat) : List Nat :=
  (List.range n).map (fun i => i + 1)

/-- Inner page loop of `_fetch_jobs_from_jsearch`; the second component
logs the requests issued as (query, page) pairs. -/
def jsearchPages (http : String → Nat → HttpOut) (q : String)
    (acc : List QJv) : List Nat → FetchStep × List (String × Nat)
  | [] => (.more acc, [])
  | p :: rest =>
    let step : FetchStep × List (String × Nat) :=
      match http q p with
      | .exn m => (.fail m, [])
      | .resp st body =>
        if st = 401 then (.stop acc, [])
        else if 400 ≤ st then
          let r := jsearchPages http q acc rest
          (r.1, r.2)
        else
          match body with
          | none => (.fail "JSONDecodeError", [])
          | some data =>
            match jsearchItems data with
            | .error m => (.fail m, [])
            | .ok items =>
              match extendItems acc items with
              | .error m => (.fail m, [])
              | .ok acc2 =>
                let r := jsearchPages http q acc2 rest
                (r.1, r.2)
    (step.1, (q, p) :: step.2)

/-- Outer query loop of `_fetch_jobs_from_jsearch`. -/
def jsearchQueries (http : String → Nat → HttpOut) (pages : List Nat)
    (acc : List QJv) : List String → FetchStep × List (String × Nat)
  | [] => (.more acc, [])
  | q :: qs =>
    match jsearchPages http q acc pages with
    | (.more acc2, log) =>
      let r := jsearchQueries http pages acc2 qs
      (r.1, log ++ r.2)
    | (.stop acc2, log) => (.stop acc2, log)
    | (.fail m, log) => (.fail m, log)

/-- `_fetch_jobs_from_jsearch`.  A missing key yields `[]` without any
request; a 401 returns the records fetched so far; other non-2xx pages are
skipped; a transport exception or malformed body propagates. -/
def fetchJsearch (key : Option String) (http : String → Nat → HttpOut)
    (queries : List String) (pagesPerQuery : Nat) :
    Except String (List QJv) × List (String × Nat) :=
  if credMissing key then (.ok [], [])
  else
    match jsearchQueries http (pageRange pagesPerQuery) [] queries with
    | (.more acc, log) => (.ok acc, log)
    | (.stop acc, log) => (.ok acc, log)
    | (.fail m, log) => (.error m, log)

/-- `data.get("results")` in the Adzuna fetcher (non-dict body raises at
`.get`; the subsequent `or []` and extend behave as in `extendItems`). -/
def adzunaItems (data : QJv) : Except String (Option QJv) :=
  match data with
  | .obj fs => .ok (jget fs "results")
  | _ => .error "AttributeError: get"

/-- Inner page loop of `_fetch_jobs_from_adzuna`: note the absence of any
401 special case — every error status is skipped alike. -/
def adzunaPages (http : String → String → Nat → HttpOut) (what wher : String)
    (acc : List QJv) : List Nat → FetchStep × List (String × String × Nat)
  | [] => (.more acc, [])
  | p :: rest =>
    let step : FetchStep × List (String × String × Nat) :=
      match http what wher p with
      | .exn m => (.fail m, [])
      | .resp st body =>
        if 400 ≤ st then
          let r := adzunaPages http what wher acc rest
          (r.1, r.2)
        else
          match body with
          | none => (.fail "JSONDecodeError", [])
          | some data =>
            match adzunaItems data with
            | .error m => (.fail m, [])
            | .ok items =>
              match extendItems acc items with
              | .error m => (.fail m, [])
              | .ok acc2 =>
                let r := adzunaPages http what wher acc2 rest
                (r.1, r.2)
    (step.1, (what, wher, p) :: step.2)

/-- Outer query loop of `_fetch_jobs_from_adzuna` (each query is split
into what/where first). -/
def adzunaQueries (http : String → String → Nat → HttpOut) (pages : List Nat)
    (acc : List QJv) : List String → FetchStep × List (String × String × Nat)
  | [] => (.more acc, [])
  | q :: qs =>
    let ww := splitQueryLocation q
    match adzunaPages http ww.1 ww.2 acc pages with
    | (.more acc2, log) =>
      let r := adzunaQueries http pages acc2 qs
      (r.1, log ++ r.2)
    | (.stop acc2, log) => (.stop acc2, log)
    | (.fail m, log) => (.fail m, log)

/-- `_fetch_jobs_from_adzuna`. -/
def fetchAdzuna (appId appKey : Option String)
    (http : String → String → Nat → HttpOut) (queries : List String)
    (pagesPerQuery : Nat) :
    Except String (List QJv) × List (String × String × Nat) :=
  if credMissing appId || credMissing appKey then (.ok [], [])
  else
    match adzunaQueries http (pageRange pagesPerQuery) [] queries with
    | (.more acc, log) => (.ok acc, log)
    | (.stop acc, log) => (.ok acc, log)
    | (.fail m, log) => (.error m, log)

/-! ### `load_jobs.py`: `load_and_clean_jobs` -/

/-- The durable state touched by `load_and_clean_jobs`: the persisted
canonical snapshot (`none` = `jobs_clean.json` absent, `some none` = the
file exists but reading/parsing it raises, `some (some d)` = it parses to
`d`) and the raw per-source payload file. -/
structure JobsEnv where
  cleanSnapshot : Option (Option (List QDict))
  rawSnapshot : Option (List QJv × List QJv)

/-- The external boundaries of the refresh pipeline.  `crawlLayer` is the
composite discovery/crawl phase (`_choose_companies_from_scratch`,
`_discover_careers_urls`, `_crawl_targets_for_jobs`), whose network and LLM
effects make it an oracle here; its own failure is caught by the source. -/
structure LoadOracles where
  jsearchKey : Option String
  adzunaId : Option String
  adzunaKey : Option String
  serperKey : Option String
  httpJsearch : String → Nat → HttpOut
  httpAdzuna : String → String → Nat → HttpOut
  hashFn : String → String
  pyStr : QJv → String
  crawlLayer : List String → Except String (List QDict)

/-- One adapter invocation, for the theorems that assert which sources ran. -/
inductive SrcCall where
  | jsearchCall (q : String) (p : Nat)
  | adzunaCall (what wher : String) (p : Nat)
  | crawlCall

/-- The five default queries of `load_and_clean_jobs`. -/
def defaultQueries : List String :=
  ["software engineer internship in New York",
   "data science internship in New York",
   "machine learning engineer entry level in New York",
   "backend developer internship remote",
   "ai engineer entry level remote"]

/-- The fetch → normalize → dedup → persist refresh pipeline (the body of
`load_and_clean_jobs` past the snapshot check). -/
def refreshJobs (o : LoadOracles) (env : JobsEnv)
    (queries : Option (List String)) :
    Except String (List QDict) × JobsEnv × List SrcCall :=
  let qs :=
    match queries with
    | none => defaultQueries
    | some [] => defaultQueries
    | some l => l
  let fj := fetchJsearch o.jsearchKey o.httpJsearch qs 3
  let logJ := fj.2.map (fun p => SrcCall.jsearchCall p.1 p.2)
  match fj.1 with
  | .error m => (.error m, env, logJ)
  | .ok rawJ =>
    let fa := fetchAdzuna o.adzunaId o.adzunaKey o.httpAdzuna qs 3
    let logA := fa.2.map (fun p => SrcCall.adzunaCall p.1 p.2.1 p.2.2)
    match fa.1 with
    | .error m => (.error m, env, logJ ++ logA)
    | .ok rawA =>
      let env1 : JobsEnv := ⟨env.cleanSnapshot, some (rawJ, rawA)⟩
      match cleanJobsJsearch o.pyStr rawJ with
      | .error m => (.error m, env1, logJ ++ logA)
      | .ok cleanJ =>
        match cleanJobsAdzuna o.hashFn o.pyStr rawA with
        | .error m => (.error m, env1, logJ ++ logA)
        | .ok cleanA =>
          let base := cleanJ ++ cleanA
          let withCrawl :=
            if credMissing o.serperKey then (base, ([] : List SrcCall))
            else
              match o.crawlLayer qs with
              | .ok cj => (base ++ cj, [SrcCall.crawlCall])
              | .error _ => (base, [SrcCall.crawlCall])
          match dedupeJobs withCrawl.1 with
          | .error m => (.error m, env1, logJ ++ logA ++ withCrawl.2)
          | .ok ded =>
            (.ok ded, ⟨some (some ded), env1.rawSnapshot⟩,
              logJ ++ logA ++ withCrawl.2)

/-- `load_and_clean_jobs`: a readable persisted snapshot short-circuits the
pipeline when `force_refresh` is false; an unreadable one falls through to
a refresh (the read error is caught). -/
def loadAndCleanJobs (o : LoadOracles) (env : JobsEnv) (forceRefresh : Bool)
    (queries : Option (List String)) :
    Except String (List QDict) × JobsEnv × List SrcCall :=
  match env.cleanSnapshot, forceRefresh with
  | some (some d), false => (.ok d, env, [])
  | _, _ => refreshJobs o env queries

/-! ### `load_jobs.py`: `_detect_ats` and `_crawl_targets_for_jobs`

BeautifulSoup and the network are behind oracles (`fetchJson`, `fetchHtml`,
`extractJsonld`, `anchors`, `urljoin`); `_extract_jobposting_jsonld` only
ever returns dicts (it filters on `isinstance(x, dict)`), so its oracle
returns `List QDict`.  An operation log records which endpoints and
extraction steps each target triggers. -/

/-- The substring of `u` after the first occurrence of `pat` (Python
`u.split(pat, 1)[1]`; `u` itself when `pat` is absent). -/
def afterFirst (u pat : String) : String :=
  match findSub u pat with
  | some i => String.mk (u.toList.drop (i + pat.toList.length))
  | none => u

/-- Python `s.split("/", 1)[0]`. -/
def upToSlash (s : String) : String :=
  String.mk (s.toList.takeWhile (fun c => !(c == '/')))

/-- `_detect_ats`: recognise Lever and Greenhouse board URLs and extract
the board slug. -/
def detectAts (url : String) : String × Option String :=
  let u := strToLower (pyStrip url)
  if (findSub u "jobs.lever.co/").isSome then
    let slug := pyStrip (upToSlash (afterFirst u "jobs.lever.co/"))
    ("lever", if slug = "" then none else some slug)
  else if (findSub u "boards.greenhouse.io/").isSome then
    let slug := pyStrip (upToSlash (afterFirst u "boards.greenhouse.io/"))
    ("greenhouse", if slug = "" then none else some slug)
  else ("unknown", none)

/-- `_domain`: the lower-cased network location of a URL (the part between
`://` and the next `/`; empty without a scheme, as with `urlparse`). -/
def urlDomain (url : String) : String :=
  match findSub url "://" with
  | some i => strToLower (upToSlash (String.mk (url.toList.drop (i + 3))))
  | none => ""

/-- Oracles for the crawl layer. -/
structure CrawlOracles where
  fetchJson : String → Except String QJv
  fetchHtml : String → Except String String
  extractJsonld : String → List QDict
  anchors : String → List String
  urljoin : String → String → String
  pyStr : QJv → String
  hashFn : String → String
  textClean : String → String

/-- One logged crawl operation. -/
inductive CrawlOp where
  | leverApi (slug : String)
  | greenhouseApi (slug : String)
  | pageFetch (url : String)
  | jsonldScan (url : String)
  | linkStep (url : String)
deriving DecidableEq

/-- `_clean_text` applied to `x or ""` (a truthy non-string raises in
`re.sub`; the regex-based tag stripping itself is the `textClean` oracle). -/
def cleanTextOf (tc : String → String) (v : QJv) : Except String String :=
  match v with
  | .str s => .ok (tc s)
  | _ => .error "TypeError: re.sub"

/-- Python `.strip()` on a value that must be a string. -/
def stripStr (v : QJv) : Except String String :=
  match v with
  | .str s => .ok (pyStrip s)
  | _ => .error "AttributeError: strip"

/-- One Lever posting (`for it in items` body of `_crawl_lever`). -/
def leverItem (O : CrawlOracles) (slug company : String) (acc : List QDict)
    (it : QJv) : Except String (List QDict) :=
  match it with
  | .obj fs => do
    let title ← orEmptyStrip (jget fs "text")
    let loc ←
      match getOrJv fs "categories" (.obj []) with
      | .obj cf => orEmptyStrip (jget cf "location")
      | _ => .error "AttributeError: get"
    let desc ← cleanTextOf O.textClean (getOrJv fs "description" (.str ""))
    let applyUrl ← stripStr (getOrJv fs "hostedUrl" (getOrJv fs "applyUrl" (.str "")))
    if title = "" ∧ applyUrl = "" then return acc
    else
      let jobId := "lever:" ++ stableIdFromText O.hashFn (slug ++ "|" ++ title ++ "|" ++ applyUrl)
      return acc ++ [[("job_id", .str jobId), ("title", .str title),
        ("company", .str (if company = "" then slug else company)),
        ("location", .str loc), ("employment_type", .str ""),
        ("publisher", .str "lever"), ("description", .str desc),
        ("url", .str applyUrl)]]
  | _ => .error "AttributeError: get"

/-- `_crawl_lever`: the fetch failure is caught (`[]`); iterating a truthy
non-list body raises as in Python. -/
def crawlLever (O : CrawlOracles) (slug company : String) :
    Except String (List QDict) :=
  if slug = "" then .ok []
  else
    match O.fetchJson ("https://api.lever.co/v0/postings/" ++ slug ++ "?mode=json") with
    | .error _ => .ok []
    | .ok v =>
      match (if truthy v then v else .arr []) with
      | .arr xs => xs.foldlM (leverItem O slug company) []
      | .obj _ => .error "AttributeError: get"
      | .str _ => .error "AttributeError: get"
      | _ => .error "TypeError: iteration"

/-- One Greenhouse posting (`for it in items` body of `_crawl_greenhouse`). -/
def greenhouseItem (O : CrawlOracles) (slug company : String)
    (acc : List QDict) (it : QJv) : Except String (List QDict) :=
  match it with
  | .obj fs => do
    let title ← orEmptyStrip (jget fs "title")
    let loc ←
      match getOrJv fs "location" (.obj []) with
      | .obj lf => orEmptyStrip (jget lf "name")
      | _ => .error "AttributeError: get"
    let desc ← cleanTextOf O.textClean (getOrJv fs "content" (.str ""))
    let applyUrl ← stripStr (getOrJv fs "absolute_url" (.str ""))
    if title = "" ∧ applyUrl = "" then return acc
    else
      let jobId := "gh:" ++ stableIdFromText O.hashFn (slug ++ "|" ++ title ++ "|" ++ applyUrl)
      return acc ++ [[("job_id", .str jobId), ("title", .str title),
        ("company", .str (if company = "" then slug else company)),
        ("location", .str loc), ("employment_type", .str ""),
        ("publisher", .str "greenhouse"), ("description", .str desc),
        ("url", .str applyUrl)]]
  | _ => .error "AttributeError: get"

/-- `_crawl_greenhouse`. -/
def crawlGreenhouse (O : CrawlOracles) (slug company : String) :
    Except String (List QDict) :=
  if slug = "" then .ok []
  else
    match O.fetchJson ("https://boards-api.greenhouse.io/v1/boards/" ++ slug ++ "/jobs") with
    | .error _ => .ok []
    | .ok v =>
      match (if truthy v then v else .obj []) with
      | .obj fs =>
        match getOrJv fs "jobs" (.arr []) with
        | .arr xs => xs.foldlM (greenhouseItem O slug company) []
        | .obj _ => .error "AttributeError: get"
        | .str _ => .error "AttributeError: get"
        | _ => .error "TypeError: iteration"
      | _ => .error "AttributeError: get"

/-- The location extracted from a JSON-LD posting (`jobLocation.address`). -/
def postingLoc (pyStr : QJv → String) (fs : QDict) : String :=
  let fromAddr : QDict → String := fun addr =>
    pyStrApp pyStr (getOrJv addr "addressLocality" (getOrJv addr "addressRegion" (.str "")))
  match jget fs "jobLocation" with
  | some (.obj jl) =>
    match getOrJv jl "address" (.obj []) with
    | .obj addr => fromAddr addr
    | _ => ""
  | some (.arr (Jv.obj jl0 :: _)) =>
    match getOrJv jl0 "address" (.obj []) with
    | .obj addr => fromAddr addr
    | _ => ""
  | _ => ""

/-- `_postings_to_clean_jobs`, one JSON-LD posting. -/
def postingToClean (O : CrawlOracles) (company fallbackUrl : String)
    (fs : QDict) : QDict :=
  let title := pyStrip (pyStrApp O.pyStr (getOrJv fs "title" (.str "")))
  let desc := O.textClean (pyStrApp O.pyStr (getOrJv fs "description" (.str "")))
  let url := pyStrip (pyStrApp O.pyStr (getOrJv fs "url" (.str fallbackUrl)))
  let jobId := "crawl:" ++ stableIdFromText O.hashFn (company ++ "|" ++ title ++ "|" ++ url)
  [("job_id", .str jobId), ("title", .str title), ("company", .str company),
   ("location", .str (postingLoc O.pyStr fs)), ("employment_type", .str ""),
   ("publisher", .str "careers_crawl"), ("description", .str desc),
   ("url", .str url)]

/-- Keywords that qualify an internal link for following. -/
def linkKeywords : List String :=
  ["jobs", "careers", "positions", "opening", "greenhouse", "lever"]

/-- The candidate internal links of a page: same-domain anchors whose URL
contains a job/career keyword, in document order. -/
def collectLinks (O : CrawlOracles) (startUrl html : String) : List String :=
  ((O.anchors html).map (O.urljoin startUrl)).filter (fun u =>
    urlDomain u == urlDomain startUrl
      && linkKeywords.any (fun k => (findSub (strToLower u) k).isSome))

/-- A crawl target (`company`/`careers_url` record of the planner). -/
structure CrawlTarget where
  company : String
  careersUrl : String

/-- The link-follow loop of `_crawl_targets_for_jobs`: `seen` dedups URLs,
`followed` counts processed links, and the loop breaks once `followed`
reaches the budget.  A `linkStep` log entry marks each `followed`
increment. -/
def followLinks (O : CrawlOracles) (company : String) (budget : Nat)
    (seen : List String) (followed : Nat) (acc : List QDict) :
    List String → Except String (List QDict) × List CrawlOp
  | [] => (.ok acc, [])
  | u :: rest =>
    if seen.contains u then followLinks O company budget seen followed acc rest
    else
      match detectAts u with
      | ("lever", some s) =>
        (match crawlLever O s company with
        | .error m => (.error m, [.leverApi s])
        | .ok js =>
          if budget ≤ followed + 1 then (.ok (acc ++ js), [.leverApi s, .linkStep u])
          else
            let r := followLinks O company budget (u :: seen) (followed + 1) (acc ++ js) rest
            (r.1, [CrawlOp.leverApi s, .linkStep u] ++ r.2))
      | ("greenhouse", some s) =>
        (match crawlGreenhouse O s company with
        | .error m => (.error m, [.greenhouseApi s])
        | .ok js =>
          if budget ≤ followed + 1 then (.ok (acc ++ js), [.greenhouseApi s, .linkStep u])
          else
            let r := followLinks O company budget (u :: seen) (followed + 1) (acc ++ js) rest
            (r.1, [CrawlOp.greenhouseApi s, .linkStep u] ++ r.2))
      | _ =>
        match O.fetchHtml u with
        | .error _ =>
          let r := followLinks O company budget (u :: seen) followed acc rest
          (r.1, CrawlOp.pageFetch u :: r.2)
        | .ok sub =>
          let postings := O.extractJsonld sub
          let acc2 :=
            if postings.isEmpty then acc
            else acc ++ postings.map (postingToClean O company u)
          if budget ≤ followed + 1 then
            (.ok acc2, [.pageFetch u, .jsonldScan u, .linkStep u])
          else
            let r := followLinks O company budget (u :: seen) (followed + 1) acc2 rest
            (r.1, [CrawlOp.pageFetch u, .jsonldScan u, .linkStep u] ++ r.2)

/-- `_crawl_targets_for_jobs`, one target: ATS-first with early `continue`,
then JSON-LD on the start page, then bounded link-following. -/
def crawlOne (O : CrawlOracles) (followBudget : Nat) (t : CrawlTarget) :
    Except String (List QDict) × List CrawlOp :=
  let company := pyStrip t.company
  let startUrl := pyStrip t.careersUrl
  if startUrl = "" then (.ok [], [])
  else
    match detectAts startUrl with
    | ("lever", some s) => (crawlLever O s company, [.leverApi s])
    | ("greenhouse", some s) => (crawlGreenhouse O s company, [.greenhouseApi s])
    | _ =>
      match O.fetchHtml startUrl with
      | .error _ => (.ok [], [.pageFetch startUrl])
      | .ok html =>
        let postings := O.extractJsonld html
        if postings.isEmpty then
          let r := followLinks O company followBudget [] 0 []
            (collectLinks O startUrl html)
          (r.1, [CrawlOp.pageFetch startUrl, .jsonldScan startUrl] ++ r.2)
        else
          (.ok (postings.map (postingToClean O company startUrl)),
            [.pageFetch startUrl, .jsonldScan startUrl])

/-- `_crawl_targets_for_jobs` over the target list. -/
def crawlTargets (O : CrawlOracles) (followBudget : Nat) :
    List CrawlTarget → Except String (List QDict) × List CrawlOp
  | [] => (.ok [], [])
  | t :: ts =>
    let r := crawlOne O followBudget t
    match r.1 with
    | .error m => (.error m, r.2)
    | .ok js =>
      let rr := crawlTargets O followBudget ts
      (match rr.1 with
       | .ok js2 => .ok (js ++ js2)
       | .error m => .error m, r.2 ++ rr.2)

/-! ### `retriever.py`: caches, embeddings, `get_top_jobs`

Floating point numbers are idealised as `ℝ` (cosine similarities involve a
square root).  The embedding service is an oracle `embed : String → List ℝ`
and the two module-level caches form an explicit `RetrieverState`.  The
disk/refresh branch of `_load_jobs` always produces some list of records,
passed as the parameter `fromDisk`.  NumPy's `argsort(-sims)` followed by
fancy indexing is modelled as sorting the jobs-with-scores sequence by
descending score (`List.insertionSort`), which agrees with the source
whenever the cached matrix is coherent with the cached jobs. -/

abbrev RJv := Jv ℝ

abbrev RDict := List (String × RJv)

/-- The process-wide caches `_JOBS_CACHE` and `_JOB_EMBEDDINGS`. -/
structure RetrieverState where
  jobsCache : Option (List RDict)
  jobEmbeddings : Option (List (List ℝ))

/-- `_load_jobs`: return the cache when set, otherwise cache and return the
loaded records. -/
def loadJobsFn (s : RetrieverState) (fromDisk : List RDict) :
    List RDict × RetrieverState :=
  match s.jobsCache with
  | some js => (js, s)
  | none => (fromDisk, ⟨some fromDisk, s.jobEmbeddings⟩)

/-- The embedded text of a job: `f"{title}\n{description}"`. -/
def docText (pyStr : RJv → String) (j : RDict) : String :=
  pyStrApp pyStr ((jget j "title").getD (.str "")) ++ "\n"
    ++ pyStrApp pyStr ((jget j "description").getD (.str ""))

/-- `_ensure_embeddings`: reuse the cached matrix, else embed every job
text and cache the rows (`np.zeros((0, 1))` for an empty job set becomes
the empty row list, which has size 0). -/
def ensureEmbeddings (pyStr : RJv → String) (embed : String → List ℝ)
    (s : RetrieverState) (fromDisk : List RDict) :
    List (List ℝ) × RetrieverState :=
  match s.jobEmbeddings with
  | some m => (m, s)
  | none =>
    let L := loadJobsFn s fromDisk
    if L.1.isEmpty then ([], ⟨L.2.jobsCache, some []⟩)
    else
      let rows := L.1.map (fun j => embed (docText pyStr j))
      (rows, ⟨L.2.jobsCache, some rows⟩)

/-- NumPy dot product of two (equal-length) vectors. -/
noncomputable def dotR (v w : List ℝ) : ℝ :=
  ((v.zip w).map (fun p => p.1 * p.2)).sum

/-- `np.linalg.norm`. -/
noncomputable def normR (v : List ℝ) : ℝ :=
  Real.sqrt ((v.map (fun x => x * x)).sum)

/-- The `1e-8` guard of the similarity denominator. -/
noncomputable def cosEps : ℝ := 1 / 100000000

/-- The cosine similarity of a matrix row against the query vector:
`dot / (||row|| * ||query|| + 1e-8)`. -/
noncomputable def cosSim (row q : List ℝ) : ℝ :=
  dotR row q / (normR row * normR q + cosEps)

/-- `job_vecs.size`: the number of scalar entries of the matrix. -/
def matSize (rows : List (List ℝ)) : Nat :=
  (rows.map List.length).sum

/-- Descending-score order on jobs paired with their similarity. -/
def scoreGE (a b : RDict × ℝ) : Prop := b.2 ≤ a.2

noncomputable instance : DecidableRel scoreGE := fun a b =>
  inferInstanceAs (Decidable (b.2 ≤ a.2))

instance : IsTotal (RDict × ℝ) scoreGE := ⟨fun a b => le_total b.2 a.2⟩

instance : IsTrans (RDict × ℝ) scoreGE :=
  ⟨fun _ _ _ hab hbc => le_trans hbc hab⟩

/-- `get_top_jobs`: strip the query, load jobs, ensure embeddings, rank all
postings by cosine similarity and return copies of the best
`min(k, len(jobs))` records with a `score` entry added. -/
noncomputable def getTopJobs (pyStr : RJv → String) (embed : String → List ℝ)
    (fromDisk : List RDict) (s : RetrieverState) (query : String) (k : Nat) :
    List RDict × RetrieverState :=
  let q := pyStrip query
  if q = "" then ([], s)
  else
    let L := loadJobsFn s fromDisk
    if L.1.isEmpty then ([], L.2)
    else
      let E := ensureEmbeddings pyStr embed L.2 fromDisk
      if matSize E.1 = 0 then ([], E.2)
      else
        let qv := embed q
        let sims := E.1.map (fun row => cosSim row qv)
        let kk := min k L.1.length
        let sorted := List.insertionSort scoreGE (L.1.zip sims)
        ((sorted.take kk).map (fun p => setKey p.1 "score" (Jv.num p.2)), E.2)

/-! ### `job_matcher_agent.py`: tolerant parsing and ranking

`json.loads` is the oracle `jsonLoads : String → Option QJv` (`none` for a
`JSONDecodeError`), `float(...)` applied to a string is the oracle
`strFloat`, and pydantic's `str` field validation of `JobMatch` is modelled
by `asPyStr`.  Errors raised by the ranking loop are `Except.error`. -/

/-- `content[start:end]` for `start = content.find("[")` and
`end = content.rfind("]") + 1`, guarded by `0 <= start < end`. -/
def bracketSlice (content : String) : Option String :=
  match strFindChar content '[', strRfindChar content ']' with
  | some i, some j => if i < j + 1 then some (strSlice content i (j + 1)) else none
  | _, _ => none

/-- The second parse attempt of `_parse_matches`: parse the substring
between the first `[` and the last `]`. -/
def parseSliceAttempt (jsonLoads : String → Option QJv) (c : String) :
    List QJv :=
  match bracketSlice c with
  | none => []
  | some sub =>
    match jsonLoads sub with
    | some (.arr xs) => xs
    | _ => []

/-- `_parse_matches`: strip, try a direct parse, then a parse of the
bracket-delimited slice; anything but a JSON list becomes `[]`. -/
def parseMatches (jsonLoads : String → Option QJv) (content : String) :
    List QJv :=
  let c := pyStrip content
  if c = "" then []
  else
    match jsonLoads c with
    | some (.arr xs) => xs
    | _ => parseSliceAttempt jsonLoads c

/-- The `JobMatch` pydantic model of `graph/state.py`. -/
structure JobMatch where
  job_id : String
  score : ℚ
  rationale : String
  title : Option String := none
  company : Option String := none
  location : Option String := none
deriving DecidableEq

/-- Python `float(v)` (`strFloat` decides which strings parse). -/
def pyFloat (strFloat : String → Option ℚ) : QJv → Except String ℚ
  | .num x => .ok x
  | .bool b => .ok (if b then 1 else 0)
  | .str s =>
    match strFloat s with
    | some x => .ok x
    | none => .error "ValueError: float"
  | _ => .error "TypeError: float"

/-- Pydantic validation of a `str` field (no lax coercion from numbers). -/
def asPyStr : QJv → Except String String
  | .str s => .ok s
  | _ => .error "ValidationError: str"

/-- `j.get(k) or ""` as fed to an `Optional[str]` field. -/
def fieldOrEmpty (j : QDict) (k : String) : QJv :=
  let v := (jget j k).getD .null
  if truthy v then v else .str ""

/-- Insertion into the `by_id` dict comprehension (overwrite or append). -/
def byIdInsert (m : List (QJv × QDict)) (k : QJv) (j : QDict) :
    List (QJv × QDict) :=
  if (m.find? (fun p => pyEqScalar p.1 k)).isSome then
    m.map (fun p => if pyEqScalar p.1 k then (p.1, j) else p)
  else m ++ [(k, j)]

/-- `by_id = \x7bj["job_id"]: j for j in candidates\x7d`: a candidate
without the key raises `KeyError`, an unhashable id raises `TypeError`. -/
def byIdBuild (acc : List (QJv × QDict)) :
    List QDict → Except String (List (QJv × QDict))
  | [] => .ok acc
  | j :: rest =>
    match jget j "job_id" with
    | none => .error "KeyError: job_id"
    | some k =>
      if hashable k then byIdBuild (byIdInsert acc k j) rest
      else .error "TypeError: unhashable"

/-- `by_id.get(job_id)`. -/
def byIdGet (m : List (QJv × QDict)) (k : QJv) :
    Except String (Option QDict) :=
  if hashable k then .ok ((m.find? (fun p => pyEqScalar p.1 k)).map (fun p => p.2))
  else .error "TypeError: unhashable"

/-- The LLM-path loop body of `job_matcher_node`: a non-dict entry raises
at `m.get`, a falsy or unknown `job_id` is skipped, and the surviving entry
is validated into a `JobMatch`. -/
def processEntry (strFloat : String → Option ℚ) (byId : List (QJv × QDict))
    (acc : List JobMatch) (m : QJv) : Except String (List JobMatch) :=
  match m with
  | .obj fs =>
    let jid := (jget fs "job_id").getD .null
    if truthy jid then do
      let jobOpt ← byIdGet byId jid
      match jobOpt with
      | none => .ok acc
      | some job => do
        let scoreVal :=
          match jget fs "score" with
          | some v => v
          | none => (jget job "score").getD (.num 0)
        let sc ← pyFloat strFloat scoreVal
        let rat := (jget fs "rationale").getD (.str "")
        let jidS ← asPyStr jid
        let tS ← asPyStr (fieldOrEmpty job "title")
        let cS ← asPyStr (fieldOrEmpty job "company")
        let lS ← asPyStr (fieldOrEmpty job "location")
        let ratS ← asPyStr rat
        return acc ++ [JobMatch.mk jidS sc ratS (some tS) (some cS) (some lS)]
    else .ok acc
  | _ => .error "AttributeError: get"

/-- The generic rationale of the similarity fallback. -/
def baselineRationale : String :=
  "Baseline match based on semantic similarity between this job and your skills, experience summary, and years of experience."

/-- The fallback-path loop body (`for j in candidates[:top_k]`). -/
def fallbackStep (strFloat : String → Option ℚ) (j : QDict) :
    Except String JobMatch :=
  match jget j "job_id" with
  | none => .error "KeyError: job_id"
  | some jid => do
    let jidS ← asPyStr jid
    let tS ← asPyStr (fieldOrEmpty j "title")
    let cS ← asPyStr (fieldOrEmpty j "company")
    let lS ← asPyStr (fieldOrEmpty j "location")
    let sc ← pyFloat strFloat ((jget j "score").getD (.num 0))
    return JobMatch.mk jidS sc baselineRationale (some tS) (some cS) (some lS)

/-- The fallback loop over the selected candidates, in order (the first
failing candidate raises, as in Python). -/
def fallbackList (strFloat : String → Option ℚ) :
    List QDict → Except String (List JobMatch)
  | [] => .ok []
  | c :: rest => do
    let jm ← fallbackStep strFloat c
    let ms ← fallbackList strFloat rest
    return jm :: ms

/-- The similarity fallback: the first `min(5, len(candidates))`
candidates in their incoming order. -/
def fallbackMatches (strFloat : String → Option ℚ)
    (candidates : List QDict) : Except String (List JobMatch) :=
  fallbackList strFloat (candidates.take (min 5 candidates.length))

/-- The ranking phase of `job_matcher_node` (lines 173–222): parse the
oracle output, build `by_id`, then either the LLM path or the similarity
fallback. -/
def buildJobMatches (jsonLoads : String → Option QJv)
    (strFloat : String → Option ℚ) (candidates : List QDict)
    (content : String) : Except String (List JobMatch) := do
  let ms := parseMatches jsonLoads content
  let byId ← byIdBuild [] candidates
  if ms.isEmpty then fallbackMatches strFloat candidates
  else ms.foldlM (processEntry strFloat byId) []

/-! ### Facts about Python scalar equality -/

theorem pyEq_symm (a b : QJv) : pyEqScalar a b = pyEqScalar b a := by
  cases a <;> cases b <;> simp [pyEqScalar, eq_comm, BEq.comm]

theorem pyEq_refl (v : QJv) (h : hashable v = true) : pyEqScalar v v = true := by
  cases v <;> simp_all [pyEqScalar, hashable]

theorem pyEq_trans (a b c : QJv) (hab : pyEqScalar a b = true)
    (hbc : pyEqScalar b c = true) : pyEqScalar a c = true := by
  cases a <;> cases b <;> cases c <;> simp_all [pyEqScalar] <;>
    split_ifs at * <;> simp_all

theorem truthy_falsy_pyEq (a b : QJv) (ha : truthy a = false)
    (hb : truthy b = true) : pyEqScalar a b = false := by
  cases a <;> cases b <;>
    simp_all [pyEqScalar, truthy] <;>
    exact fun h => hb h.symm

/-! ### Deduplication: characterization and size law -/

theorem dedupeAux_spec (js : List QDict) : ∀ seen : List QJv,
    (∀ r ∈ js, truthy (jvId r) = true → hashable (jvId r) = true) →
    ∃ out, dedupeAux seen js = .ok out
      ∧ out.Sublist js
      ∧ (∀ r ∈ out, truthy (jvId r) = true
          ∧ seen.any (fun u => pyEqScalar u (jvId r)) = false)
      ∧ List.Pairwise (fun a b => pyEqScalar (jvId a) (jvId b) = false) out
      ∧ (∀ r ∈ js, truthy (jvId r) = true →
          seen.any (fun u => pyEqScalar u (jvId r)) = true
          ∨ ∃ r2 ∈ out, pyEqScalar (jvId r2) (jvId r) = true)
      ∧ (∀ r ∈ out, ∃ pre post, js = pre ++ r :: post
          ∧ ∀ p ∈ pre, pyEqScalar (jvId p) (jvId r) = false) := by
  induction js with
  | nil =>
    intro seen _
    exact ⟨[], rfl, List.Sublist.refl _, by simp, by simp, by simp, by simp⟩
  | cons j rest ih =>
    intro seen hh
    by_cases hv : truthy (jvId j) = true
    · have hvh : hashable (jvId j) = true := hh j (by simp) hv
      by_cases hseen : seen.any (fun u => pyEqScalar u (jvId j)) = true
      · -- already seen: the record is dropped
        obtain ⟨out, heq, hsub, h2, h3, h4, h5⟩ :=
          ih seen (fun r hr => hh r (List.mem_cons_of_mem _ hr))
        refine ⟨out, ?_, hsub.cons _, h2, h3, ?_, ?_⟩
        · simp only [dedupeAux, hv, hvh, hseen, if_true]
          exact heq
        · intro r hr htr
          rcases List.mem_cons.mp hr with rfl | hr
          · exact Or.inl hseen
          · exact h4 r hr htr
        · intro r hr
          obtain ⟨pre, post, hrest, hpre⟩ := h5 r hr
          obtain ⟨u, hu, huv⟩ := List.any_eq_true.mp hseen
          have hj : pyEqScalar (jvId j) (jvId r) = false := by
            by_contra hc
            rw [Bool.not_eq_false] at hc
            have := pyEq_trans u (jvId j) (jvId r) huv hc
            have hfa := List.any_eq_false.mp (h2 r hr).2 u hu
            simp [this] at hfa
          refine ⟨j :: pre, post, by rw [hrest]; rfl, ?_⟩
          intro p hp
          rcases List.mem_cons.mp hp with rfl | hp
          · exact hj
          · exact hpre p hp
      · -- new id: the record is kept
        obtain ⟨out, heq, hsub, h2, h3, h4, h5⟩ :=
          ih (jvId j :: seen) (fun r hr => hh r (List.mem_cons_of_mem _ hr))
        have hjr : ∀ r ∈ out, pyEqScalar (jvId j) (jvId r) = false := by
          intro r hr
          have := List.any_eq_false.mp (h2 r hr).2 (jvId j) (by simp)
          simpa using this
        refine ⟨j :: out, ?_, hsub.cons₂ _, ?_, ?_, ?_, ?_⟩
        · simp only [dedupeAux, hv, hvh, hseen, if_true, if_false,
            Bool.false_eq_true]
          rw [heq]
          rfl
        · intro r hr
          rcases List.mem_cons.mp hr with rfl | hr
          · exact ⟨hv, by simpa using hseen⟩
          · have := (h2 r hr).2
            simp only [List.any_cons, Bool.or_eq_false_iff] at this
            exact ⟨(h2 r hr).1, this.2⟩
        · exact List.Pairwise.cons hjr h3
        · intro r hr htr
          rcases List.mem_cons.mp hr with rfl | hr
          · exact Or.inr ⟨r, by simp, pyEq_refl _ hvh⟩
          · rcases h4 r hr htr with hany | ⟨r2, hr2, hpe⟩
            · simp only [List.any_cons, Bool.or_eq_true] at hany
              rcases hany with hje | hsa
              · exact Or.inr ⟨j, by simp, hje⟩
              · exact Or.inl hsa
            · exact Or.inr ⟨r2, List.mem_cons_of_mem _ hr2, hpe⟩
        · intro r hr
          rcases List.mem_cons.mp hr with rfl | hr
          · exact ⟨[], rest, rfl, by simp⟩
          · obtain ⟨pre, post, hrest, hpre⟩ := h5 r hr
            refine ⟨j :: pre, post, by rw [hrest]; rfl, ?_⟩
            intro p hp
            rcases List.mem_cons.mp hp with hpj | hp
            · rw [hpj]; exact hjr r hr
            · exact hpre p hp
    · -- falsy id: the record is dropped
      obtain ⟨out, heq, hsub, h2, h3, h4, h5⟩ :=
        ih seen (fun r hr => hh r (List.mem_cons_of_mem _ hr))
      rw [Bool.not_eq_true] at hv
      refine ⟨out, ?_, hsub.cons _, h2, h3, ?_, ?_⟩
      · simp only [dedupeAux, hv, Bool.false_eq_true, if_false]
        exact heq
      · intro r hr htr
        rcases List.mem_cons.mp hr with rfl | hr
        · rw [hv] at htr; exact absurd htr (by simp)
        · exact h4 r hr htr
      · intro r hr
        obtain ⟨pre, post, hrest, hpre⟩ := h5 r hr
        refine ⟨j :: pre, post, by rw [hrest]; rfl, ?_⟩
        intro p hp
        rcases List.mem_cons.mp hp with rfl | hp
        · exact truthy_falsy_pyEq _ _ hv (h2 r hr).1
        · exact hpre p hp

theorem dedupeAux_cons_keep (seen : List QJv) (j : QDict) (rest : List QDict)
    (hv : truthy (jvId j) = true) (hh : hashable (jvId j) = true)
    (hseen : seen.any (fun u => pyEqScalar u (jvId j)) = false) :
    dedupeAux seen (j :: rest)
      = List.cons j <$> dedupeAux (jvId j :: seen) rest := by
  simp only [dedupeAux, hv, hh, hseen, if_true, Bool.false_eq_true, if_false]
  rfl

theorem dedupeAux_cons_seen (seen : List QJv) (j : QDict) (rest : List QDict)
    (hv : truthy (jvId j) = true) (hh : hashable (jvId j) = true)
    (hseen : seen.any (fun u => pyEqScalar u (jvId j)) = true) :
    dedupeAux seen (j :: rest) = dedupeAux seen rest := by
  simp only [dedupeAux, hv, hh, hseen, if_true]

theorem dedupeAux_cons_falsy (seen : List QJv) (j : QDict)
    (rest : List QDict) (hv : truthy (jvId j) = false) :
    dedupeAux seen (j :: rest) = dedupeAux seen rest := by
  simp only [dedupeAux, hv, Bool.false_eq_true, if_false]

theorem strIdOf_some {r : QDict} {s : String} (h : strIdOf r = some s) :
    jvId r = Jv.str s ∧ ¬ s = "" := by
  unfold strIdOf at h
  unfold jvId
  cases hj : jget r "job_id" with
  | none => rw [hj] at h; cases h
  | some v =>
    rw [hj] at h
    cases v <;> simp_all
    obtain ⟨h1, h2⟩ := h
    subst h2
    exact h1

theorem strSeen_any (seenS : List String) (t : String) :
    (seenS.map (Jv.str : String → QJv)).any (fun u => pyEqScalar u (Jv.str t))
      = decide (t ∈ seenS) := by
  induction seenS with
  | nil => simp
  | cons u rest ih =>
    simp only [List.map_cons, List.any_cons, ih]
    by_cases h : t = u
    · subst h; simp [pyEqScalar]
    · simp [pyEqScalar, h, Ne.symm h]

theorem dedupeAux_append : ∀ (A : List QDict) (seenS : List String)
    (tail : List QDict),
    (∀ r ∈ A, (strIdOf r).isSome = true) →
    (A.filterMap strIdOf).Nodup →
    (∀ s ∈ A.filterMap strIdOf, s ∉ seenS) →
    dedupeAux (seenS.map Jv.str) (A ++ tail)
      = Except.map (fun out => A ++ out)
          (dedupeAux (((A.filterMap strIdOf).reverse ++ seenS).map Jv.str) tail)
  | [], seenS, tail, _, _, _ => by
    cases h : dedupeAux (seenS.map Jv.str) tail <;> simp [Except.map, h]
  | a :: A, seenS, tail, hA, hnd, hdisj => by
    obtain ⟨s, hs⟩ := Option.isSome_iff_exists.mp (hA a (by simp))
    obtain ⟨hjv, hne⟩ := strIdOf_some hs
    have hids : (a :: A).filterMap strIdOf = s :: A.filterMap strIdOf := by
      simp [List.filterMap_cons, hs]
    have hsnotin : s ∉ seenS := by
      apply hdisj; rw [hids]; simp
    have hsnotA : s ∉ A.filterMap strIdOf := by
      rw [hids] at hnd; exact (List.nodup_cons.mp hnd).1
    have hcond : ((seenS.map Jv.str).any fun u => pyEqScalar u (jvId a)) = false := by
      rw [hjv, strSeen_any]; simp [hsnotin]
    rw [List.cons_append,
      dedupeAux_cons_keep _ _ _ (by rw [hjv]; simp [truthy, hne])
        (by rw [hjv]; rfl) hcond, hjv]
    have hmapcons : ((Jv.str s : QJv) :: seenS.map Jv.str)
        = (s :: seenS).map Jv.str := by
      simp
    rw [hmapcons, dedupeAux_append A (s :: seenS) tail
      (fun r hr => hA r (by simp [hr]))
      (by rw [hids] at hnd; exact (List.nodup_cons.mp hnd).2)
      (by
        intro t ht
        simp only [List.mem_cons]
        push_neg
        constructor
        · intro hts; rw [hts] at ht; exact hsnotA ht
        · exact hdisj t (by rw [hids]; simp [ht]))]
    have harg : (A.filterMap strIdOf).reverse ++ s :: seenS
        = ((a :: A).filterMap strIdOf).reverse ++ seenS := by
      rw [hids]; simp
    rw [harg]
    cases dedupeAux ((((a :: A).filterMap strIdOf).reverse ++ seenS).map Jv.str) tail <;>
      simp [Except.map, Functor.map]

theorem dedupeAux_len : ∀ (B : List QDict) (seenS : List String),
    (∀ r ∈ B, (strIdOf r).isSome = true) →
    (B.filterMap strIdOf).Nodup →
    ∃ out, dedupeAux (seenS.map Jv.str) B = .ok out
      ∧ out.length
          + ((B.filterMap strIdOf).filter (fun t => decide (t ∈ seenS))).length
        = B.length
  | [], seenS, _, _ => ⟨[], rfl, by simp⟩
  | r :: rest, seenS, hB, hnd => by
    obtain ⟨s, hs⟩ := Option.isSome_iff_exists.mp (hB r (by simp))
    obtain ⟨hjv, hne⟩ := strIdOf_some hs
    have hids : (r :: rest).filterMap strIdOf = s :: rest.filterMap strIdOf := by
      simp [List.filterMap_cons, hs]
    rw [hids] at hnd
    have hsrest : s ∉ rest.filterMap strIdOf := (List.nodup_cons.mp hnd).1
    by_cases hmem : s ∈ seenS
    · obtain ⟨out, heq, hlen⟩ :=
        dedupeAux_len rest seenS (fun x hx => hB x (by simp [hx]))
          (List.nodup_cons.mp hnd).2
      refine ⟨out, ?_, ?_⟩
      · rw [dedupeAux_cons_seen _ _ _ (by rw [hjv]; simp [truthy, hne])
          (by rw [hjv]; rfl) (by rw [hjv, strSeen_any]; simp [hmem])]
        exact heq
      · rw [hids]
        rw [List.filter_cons_of_pos (by simp [hmem])]
        simp only [List.length_cons]
        omega
    · obtain ⟨out, heq, hlen⟩ :=
        dedupeAux_len rest (s :: seenS) (fun x hx => hB x (by simp [hx]))
          (List.nodup_cons.mp hnd).2
      have hfc : (rest.filterMap strIdOf).filter
            (fun t => decide (t ∈ s :: seenS))
          = (rest.filterMap strIdOf).filter (fun t => decide (t ∈ seenS)) := by
        apply List.filter_congr
        intro t ht
        have hts : ¬ t = s := fun h => hsrest (h ▸ ht)
        simp [List.mem_cons, hts]
      rw [hfc] at hlen
      refine ⟨r :: out, ?_, ?_⟩
      · rw [dedupeAux_cons_keep _ _ _ (by rw [hjv]; simp [truthy, hne])
          (by rw [hjv]; rfl) (by rw [hjv, strSeen_any]; simp [hmem]), hjv]
        have hmapcons : ((Jv.str s : QJv) :: seenS.map Jv.str)
            = (s :: seenS).map Jv.str := by
          simp
        rw [hmapcons, heq]
        rfl
      · rw [hids]
        rw [List.filter_cons_of_neg (by simp [hmem])]
        simp only [List.length_cons]
        omega

/-- C4: `_dedupe_jobs` is a single pass over the concatenated list that
keeps the first occurrence of each `job_id`, discards every later
occurrence, and drops records whose id is missing or falsy, preserving
first-seen order (the output is a sublist whose ids are pairwise distinct,
every kept record sits at a position before which its id never occurred,
and no truthy id is lost); and for two internally duplicate-free lists `A`
and `B` whose records all carry nonempty string ids, the output size
satisfies `len(out) = len(A) + len(B) - N` where `N` counts the ids of `B`
already present in `A` (stated additively). -/
theorem dedupe_single_pass_spec :
    (∀ js : List QDict,
      (∀ r ∈ js, truthy (jvId r) = true → hashable (jvId r) = true) →
      ∃ out, dedupeJobs js = .ok out
        ∧ out.Sublist js
        ∧ (∀ r ∈ out, truthy (jvId r) = true)
        ∧ List.Pairwise (fun a b => pyEqScalar (jvId a) (jvId b) = false) out
        ∧ (∀ r ∈ js, truthy (jvId r) = true →
            ∃ r2 ∈ out, pyEqScalar (jvId r2) (jvId r) = true)
        ∧ (∀ r ∈ out, ∃ pre post, js = pre ++ r :: post
            ∧ ∀ p ∈ pre, pyEqScalar (jvId p) (jvId r) = false))
    ∧ (∀ A B : List QDict,
        (∀ r ∈ A, (strIdOf r).isSome = true) →
        (∀ r ∈ B, (strIdOf r).isSome = true) →
        (A.filterMap strIdOf).Nodup →
        (B.filterMap strIdOf).Nodup →
        ∃ out, dedupeJobs (A ++ B) = .ok out
          ∧ out.length + ((B.filterMap strIdOf).filter
              (fun t => decide (t ∈ A.filterMap strIdOf))).length
            = A.length + B.length) := by
  constructor
  · intro js hh
    obtain ⟨out, heq, hsub, h2, h3, h4, h5⟩ := dedupeAux_spec js [] hh
    refine ⟨out, heq, hsub, fun r hr => (h2 r hr).1, h3, ?_, h5⟩
    intro r hr htr
    rcases h4 r hr htr with hany | hex
    · simp at hany
    · exact hex
  · intro A B hA hB hndA hndB
    obtain ⟨outB, heqB, hlenB⟩ :=
      dedupeAux_len B (A.filterMap strIdOf).reverse hB hndB
    have happ := dedupeAux_append A [] B hA hndA (by simp)
    rw [List.append_nil] at happ
    refine ⟨A ++ outB, ?_, ?_⟩
    · show dedupeAux [] (A ++ B) = _
      have hmapnil : ([] : List QJv) = ([] : List String).map Jv.str := rfl
      rw [hmapnil, happ, heqB]
      rfl
    · have hfc : (B.filterMap strIdOf).filter
            (fun t => decide (t ∈ (A.filterMap strIdOf).reverse))
          = (B.filterMap strIdOf).filter
              (fun t => decide (t ∈ A.filterMap strIdOf)) := by
        apply List.filter_congr
        intro t _
        simp [List.mem_reverse]
      rw [hfc] at hlenB
      simp only [List.length_append]
      omega

/-- Concrete input for the C4 witness: a one-record list. -/
def c4A : List QDict := [[("job_id", Jv.str "a"), ("title", Jv.str "t")]]

/-- Concrete input for the C4 witness: two records, one sharing an id with
`c4A`. -/
def c4B : List QDict :=
  [[("job_id", Jv.str "b")], [("job_id", Jv.str "a"), ("title", Jv.str "t2")]]

/-- Witness for C4 at a concrete pair of lists sharing one id. -/
theorem dedupe_single_pass_spec_witness :
    ((∀ r ∈ c4A ++ c4B, truthy (jvId r) = true → hashable (jvId r) = true)
      ∧ ∃ out, dedupeJobs (c4A ++ c4B) = .ok out
        ∧ out.Sublist (c4A ++ c4B)
        ∧ (∀ r ∈ out, truthy (jvId r) = true)
        ∧ List.Pairwise (fun a b => pyEqScalar (jvId a) (jvId b) = false) out
        ∧ (∀ r ∈ c4A ++ c4B, truthy (jvId r) = true →
            ∃ r2 ∈ out, pyEqScalar (jvId r2) (jvId r) = true)
        ∧ (∀ r ∈ out, ∃ pre post, c4A ++ c4B = pre ++ r :: post
            ∧ ∀ p ∈ pre, pyEqScalar (jvId p) (jvId r) = false))
    ∧ ∃ out, dedupeJobs (c4A ++ c4B) = .ok out
        ∧ out.length + ((c4B.filterMap strIdOf).filter
            (fun t => decide (t ∈ c4A.filterMap strIdOf))).length
          = c4A.length + c4B.length :=
  ⟨⟨by decide, dedupe_single_pass_spec.1 (c4A ++ c4B) (by decide)⟩,
    dedupe_single_pass_spec.2 c4A c4B (by decide) (by decide) (by decide)
      (by decide)⟩

/-! ### Identifier derivation for Adzuna records -/

/-- The `job_id` string `_clean_jobs_adzuna` assigns, given the values the
cleaner extracted for company and location. -/
def adzunaJobId (h : String → String) (pyStr : QJv → String) (j : QDict)
    (c l : QJv) : String :=
  match jget j "id" with
  | none =>
    "adzuna:" ++ stableIdFromText h
      (pyStrApp pyStr (getOrJv j "title" (.str "")) ++ "|" ++ pyStrApp pyStr c
        ++ "|" ++ pyStrApp pyStr l ++ "|"
        ++ pyStrApp pyStr (getOrJv j "redirect_url" (.str "")))
  | some .null =>
    "adzuna:" ++ stableIdFromText h
      (pyStrApp pyStr (getOrJv j "title" (.str "")) ++ "|" ++ pyStrApp pyStr c
        ++ "|" ++ pyStrApp pyStr l ++ "|"
        ++ pyStrApp pyStr (getOrJv j "redirect_url" (.str "")))
  | some v => "adzuna:" ++ pyStrApp pyStr v

theorem stableId_length (h : String → String) (t : String)
    (hlen : (h t).length = 40) : (stableIdFromText h t).length = 20 := by
  unfold stableIdFromText
  show ((h t).toList.take 20).length = 20
  rw [List.length_take]
  have h40 : (h t).toList.length = 40 := by rw [← hlen]; rfl
  rw [h40]
  decide

theorem cleanAdzunaOne_ok_shape (h : String → String) (pyStr : QJv → String)
    (j out : QDict) (hok : cleanAdzunaOne h pyStr j = .ok out) :
    ∃ c l et, nestedDisplay j "company" = .ok c
      ∧ nestedDisplay j "location" = .ok l
      ∧ joinTruthyStrs [getOrJv j "contract_time" (.str ""),
          getOrJv j "contract_type" (.str "")] " " = .ok et
      ∧ out = [("job_id", .str (adzunaJobId h pyStr j c l)),
          ("title", getOrJv j "title" (.str "")), ("company", c),
          ("location", l), ("employment_type", .str (pyStrip et)),
          ("publisher", .str "adzuna"),
          ("description", getOrJv j "description" (.str ""))] := by
  unfold cleanAdzunaOne at hok
  cases hc : nestedDisplay j "company" with
  | error m =>
    rw [hc] at hok
    simp [Bind.bind, Except.bind] at hok
  | ok c =>
    rw [hc] at hok
    simp only [Bind.bind, Except.bind] at hok
    cases hl : nestedDisplay j "location" with
    | error m =>
      rw [hl] at hok
      simp [Bind.bind, Except.bind] at hok
    | ok l =>
      rw [hl] at hok
      simp only [Bind.bind, Except.bind] at hok
      cases he : joinTruthyStrs [getOrJv j "contract_time" (.str ""),
          getOrJv j "contract_type" (.str "")] " " with
      | error m =>
        rw [he] at hok
        simp [Bind.bind, Except.bind, Functor.map, Except.map] at hok
      | ok et =>
        rw [he] at hok
        simp only [Bind.bind, Except.bind, Functor.map, Except.map,
          pure] at hok
        refine ⟨c, l, et, rfl, rfl, rfl, ?_⟩
        cases hid : jget j "id" with
        | none =>
          rw [hid] at hok
          cases hok
          simp [adzunaJobId, hid]
        | some v =>
          rw [hid] at hok
          cases v <;> cases hok <;> simp [adzunaJobId, hid]

/-- C8: identifier derivation for Adzuna records is deterministic and
content-addressed.  Normalizing is a pure function of the record, so the
same raw record always receives the same `job_id`; more strongly, two
records that agree on the key fields (no native id, same extracted title,
company, location and redirect URL) collide to the same id even when other
fields differ, and every assigned id is the `adzuna:` source tag followed,
in the no-native-id case, by the fixed-length 20-character prefix of the
SHA-1 digest (27 characters in total when the digest has its usual 40). -/
theorem adzuna_id_stable :
    (∀ (h : String → String) (pyStr : QJv → String) (j1 j2 out1 out2 : QDict),
      cleanAdzunaOne h pyStr j1 = .ok out1 →
      cleanAdzunaOne h pyStr j2 = .ok out2 →
      isNoneJv (jget j1 "id") = true → isNoneJv (jget j2 "id") = true →
      getOrJv j1 "title" (.str "") = getOrJv j2 "title" (.str "") →
      nestedDisplay j1 "company" = nestedDisplay j2 "company" →
      nestedDisplay j1 "location" = nestedDisplay j2 "location" →
      getOrJv j1 "redirect_url" (.str "") = getOrJv j2 "redirect_url" (.str "") →
      jget out1 "job_id" = jget out2 "job_id")
    ∧ (∀ (h : String → String) (pyStr : QJv → String) (j out : QDict),
        cleanAdzunaOne h pyStr j = .ok out →
        (∀ t, (h t).length = 40) →
        ∃ s, jget out "job_id" = some (.str s)
          ∧ (∃ r, s = "adzuna:" ++ r)
          ∧ (isNoneJv (jget j "id") = true → s.length = 27)) := by
  constructor
  · intro h pyStr j1 j2 out1 out2 hok1 hok2 hn1 hn2 ht hcmp hloc hred
    obtain ⟨c1, l1, et1, hc1, hl1, _, hout1⟩ :=
      cleanAdzunaOne_ok_shape h pyStr j1 out1 hok1
    obtain ⟨c2, l2, et2, hc2, hl2, _, hout2⟩ :=
      cleanAdzunaOne_ok_shape h pyStr j2 out2 hok2
    have hceq : c1 = c2 := by
      have := hcmp ▸ hc1
      rw [hc2] at this
      exact (Except.ok.injEq _ _).mp this.symm
    have hleq : l1 = l2 := by
      have := hloc ▸ hl1
      rw [hl2] at this
      exact (Except.ok.injEq _ _).mp this.symm
    have hid1 : adzunaJobId h pyStr j1 c1 l1 = adzunaJobId h pyStr j2 c2 l2 := by
      unfold adzunaJobId
      unfold isNoneJv at hn1 hn2
      rcases hj1 : jget j1 "id" with _ | v1 <;>
        rcases hj2 : jget j2 "id" with _ | v2 <;>
        rw [hj1] at hn1 <;> rw [hj2] at hn2
      · rw [ht, hred, hceq, hleq]
      · cases v2 <;> simp_all
      · cases v1 <;> simp_all
      · cases v1 <;> cases v2 <;> simp_all
    rw [hout1, hout2, hid1]
    simp [jget]
  · intro h pyStr j out hok hlen
    obtain ⟨c, l, et, _, _, _, hout⟩ :=
      cleanAdzunaOne_ok_shape h pyStr j out hok
    refine ⟨adzunaJobId h pyStr j c l, ?_, ?_, ?_⟩
    · rw [hout]; simp [jget]
    · unfold adzunaJobId
      rcases jget j "id" with _ | v
      · exact ⟨_, rfl⟩
      · cases v <;> exact ⟨_, rfl⟩
    · intro hnone
      unfold adzunaJobId
      unfold isNoneJv at hnone
      rcases hj : jget j "id" with _ | v
      · rw [String.length_append, stableId_length h _ (hlen _)]
        decide
      · rw [hj] at hnone
        cases v
        case null =>
          rw [String.length_append, stableId_length h _ (hlen _)]
          decide
        all_goals simp_all

/-- A stand-in SHA-1 oracle with 40-character digests, for witnesses. -/
def wHash : String → String := fun _ => "0123456789abcdef0123456789abcdef01234567"

/-- A stand-in `str()` oracle for witnesses. -/
def wPyStr : QJv → String := fun _ => ""

/-- Witness raw Adzuna record without a native id. -/
def wAdz1 : QDict := [("title", Jv.str "T"), ("redirect_url", Jv.str "u")]

/-- The same key fields as `wAdz1` but a different description. -/
def wAdz2 : QDict :=
  [("title", Jv.str "T"), ("redirect_url", Jv.str "u"),
   ("description", Jv.str "D")]

/-- The cleaned form of `wAdz1`. -/
def wAdzOut1 : QDict :=
  [("job_id", Jv.str "adzuna:0123456789abcdef0123"), ("title", Jv.str "T"),
   ("company", Jv.str ""), ("location", Jv.str ""),
   ("employment_type", Jv.str ""), ("publisher", Jv.str "adzuna"),
   ("description", Jv.str "")]

/-- The cleaned form of `wAdz2`. -/
def wAdzOut2 : QDict :=
  [("job_id", Jv.str "adzuna:0123456789abcdef0123"), ("title", Jv.str "T"),
   ("company", Jv.str ""), ("location", Jv.str ""),
   ("employment_type", Jv.str ""), ("publisher", Jv.str "adzuna"),
   ("description", Jv.str "D")]

/-- Witness for C8: two records with equal key fields but different
descriptions collide to the same 27-character `adzuna:`-prefixed id. -/
theorem adzuna_id_stable_witness :
    (cleanAdzunaOne wHash wPyStr wAdz1 = .ok wAdzOut1
      ∧ cleanAdzunaOne wHash wPyStr wAdz2 = .ok wAdzOut2
      ∧ isNoneJv (jget wAdz1 "id") = true
      ∧ jget wAdzOut1 "job_id" = jget wAdzOut2 "job_id")
    ∧ ((∀ t, (wHash t).length = 40)
      ∧ ∃ s, jget wAdzOut1 "job_id" = some (.str s)
        ∧ (∃ r, s = "adzuna:" ++ r)
        ∧ (isNoneJv (jget wAdz1 "id") = true → s.length = 27)) :=
  ⟨⟨rfl, rfl, by decide,
      adzuna_id_stable.1 wHash wPyStr wAdz1 wAdz2 wAdzOut1 wAdzOut2 rfl rfl
        (by decide) (by decide) rfl rfl rfl rfl⟩,
    ⟨fun _ => rfl,
      adzuna_id_stable.2 wHash wPyStr wAdz1 wAdzOut1 rfl (fun _ => rfl)⟩⟩

/-! ### Retriever theorems: empty inputs and the cache frame -/

theorem loadJobsFn_cache (s : RetrieverState) (fd : List RDict) :
    (loadJobsFn s fd).2.jobsCache = s.jobsCache
    ∨ (loadJobsFn s fd).2.jobsCache = some fd := by
  cases h : s.jobsCache <;> simp [loadJobsFn, h]

theorem loadJobsFn_fst (s : RetrieverState) (fd : List RDict) :
    (loadJobsFn s fd).1 = s.jobsCache.getD fd := by
  cases h : s.jobsCache <;> simp [loadJobsFn, h]

theorem ensureEmbeddings_cache (pyStr : RJv → String)
    (embed : String → List ℝ) (s : RetrieverState) (fd : List RDict) :
    (ensureEmbeddings pyStr embed s fd).2.jobsCache = s.jobsCache
    ∨ (ensureEmbeddings pyStr embed s fd).2.jobsCache = some fd := by
  unfold ensureEmbeddings
  cases he : s.jobEmbeddings with
  | some m => simp
  | none =>
    simp only []
    rcases loadJobsFn_cache s fd with h | h
    · by_cases hempty : (loadJobsFn s fd).1.isEmpty <;>
        simp [hempty, h]
    · by_cases hempty : (loadJobsFn s fd).1.isEmpty <;>
        simp [hempty, h]

/-- C9: an empty-or-whitespace query, or an empty loaded posting set,
makes `get_top_jobs` return the empty list (and the function is total, so
nothing is raised). -/
theorem get_top_jobs_empty (pyStr : RJv → String) (embed : String → List ℝ)
    (fromDisk : List RDict) (s : RetrieverState) (query : String) (k : Nat) :
    (pyStrip query = "" → (getTopJobs pyStr embed fromDisk s query k).1 = [])
    ∧ ((loadJobsFn s fromDisk).1 = [] →
        (getTopJobs pyStr embed fromDisk s query k).1 = []) := by
  constructor
  · intro hq
    simp [getTopJobs, hq]
  · intro hj
    by_cases hq : pyStrip query = ""
    · simp [getTopJobs, hq]
    · simp [getTopJobs, hq, hj]

/-- The embedding oracle used by the retriever witnesses. -/
noncomputable def wEmbed : String → List ℝ := fun _ => [1]

/-- The `str()` oracle used by the retriever witnesses. -/
def wRPyStr : RJv → String := fun _ => ""

/-- Witness for C9: a whitespace query and an empty posting set. -/
theorem get_top_jobs_empty_witness :
    (pyStrip "  " = ""
      ∧ (getTopJobs wRPyStr wEmbed [] ⟨none, none⟩ "  " 5).1 = [])
    ∧ ((loadJobsFn (⟨none, none⟩ : RetrieverState) []).1 = []
      ∧ (getTopJobs wRPyStr wEmbed [] ⟨none, none⟩ "query" 3).1 = []) :=
  ⟨⟨by decide, (get_top_jobs_empty wRPyStr wEmbed [] ⟨none, none⟩ "  " 5).1
      (by decide)⟩,
    ⟨rfl, (get_top_jobs_empty wRPyStr wEmbed [] ⟨none, none⟩ "query" 3).2
      rfl⟩⟩

/-- C10: `get_top_jobs` never mutates the cached canonical records — after
a call, every record in the jobs cache still lacks a `score` key (provided
the records it loaded lacked one), and every returned record is a copy of
a loaded record with a `score` entry added. -/
theorem get_top_jobs_frame (pyStr : RJv → String) (embed : String → List ℝ)
    (fromDisk : List RDict) (s : RetrieverState) (query : String) (k : Nat)
    (hc : ∀ js, s.jobsCache = some js → ∀ d ∈ js, hasKey d "score" = false)
    (hd : ∀ d ∈ fromDisk, hasKey d "score" = false) :
    (∀ js, (getTopJobs pyStr embed fromDisk s query k).2.jobsCache = some js →
        ∀ d ∈ js, hasKey d "score" = false)
    ∧ (∀ r ∈ (getTopJobs pyStr embed fromDisk s query k).1,
        ∃ j v, j ∈ (loadJobsFn s fromDisk).1
          ∧ r = setKey j "score" (Jv.num v)) := by
  have hload : ∀ d ∈ (loadJobsFn s fromDisk).1, hasKey d "score" = false := by
    rw [loadJobsFn_fst]
    cases h : s.jobsCache with
    | none => simpa using hd
    | some js => simpa using hc js h
  constructor
  · intro js hjs d hdj
    revert hjs
    unfold getTopJobs
    by_cases hq : pyStrip query = ""
    · simp only [hq, if_pos]
      intro hjs
      exact hc js hjs d hdj
    · simp only [hq, if_neg, if_false]
      by_cases h1 : (loadJobsFn s fromDisk).1.isEmpty
      · simp only [h1, if_pos, if_true]
        intro hjs
        rcases loadJobsFn_cache s fromDisk with h | h <;> rw [h] at hjs
        · exact hc js hjs d hdj
        · cases hjs; exact hd d hdj
      · simp only [h1, Bool.false_eq_true, if_false]
        have hcache :
            (ensureEmbeddings pyStr embed (loadJobsFn s fromDisk).2
              fromDisk).2.jobsCache = s.jobsCache
            ∨ (ensureEmbeddings pyStr embed (loadJobsFn s fromDisk).2
                fromDisk).2.jobsCache = some fromDisk := by
          rcases ensureEmbeddings_cache pyStr embed (loadJobsFn s fromDisk).2
              fromDisk with h | h
          · rw [h]; exact loadJobsFn_cache s fromDisk
          · exact Or.inr h
        by_cases h2 : matSize (ensureEmbeddings pyStr embed
            (loadJobsFn s fromDisk).2 fromDisk).1 = 0 <;>
          [simp only [h2, if_pos, if_true]; simp only [h2, if_neg, if_false]] <;>
          · intro hjs
            rcases hcache with h | h <;> rw [h] at hjs
            · exact hc js hjs d hdj
            · cases hjs; exact hd d hdj
  · intro r hr
    revert hr
    unfold getTopJobs
    by_cases hq : pyStrip query = ""
    · simp [hq]
    · simp only [hq, if_neg, if_false]
      by_cases h1 : (loadJobsFn s fromDisk).1.isEmpty
      · simp [h1]
      · simp only [h1, Bool.false_eq_true, if_false]
        by_cases h2 : matSize (ensureEmbeddings pyStr embed
            (loadJobsFn s fromDisk).2 fromDisk).1 = 0
        · simp [h2]
        · simp only [h2, if_neg, if_false]
          intro hr
          obtain ⟨p, hp, hpr⟩ := List.mem_map.mp hr
          obtain ⟨a, b⟩ := p
          have hsorted := List.mem_of_mem_take hp
          have hzip := (List.mem_insertionSort scoreGE).mp hsorted
          have hmem := List.of_mem_zip hzip
          exact ⟨a, b, hmem.1, hpr.symm⟩

/-- Concrete loaded records for the retriever witnesses. -/
def wFrameDisk : List RDict := [[("job_id", Jv.str "a"), ("title", Jv.str "t")]]

/-- Witness for C10 on a fresh cache and one loaded record. -/
theorem get_top_jobs_frame_witness :
    ((∀ js, (⟨none, none⟩ : RetrieverState).jobsCache = some js →
        ∀ d ∈ js, hasKey d "score" = false)
      ∧ (∀ d ∈ wFrameDisk, hasKey d "score" = false))
    ∧ ((∀ js, (getTopJobs wRPyStr wEmbed wFrameDisk ⟨none, none⟩ "q" 2).2.jobsCache
          = some js → ∀ d ∈ js, hasKey d "score" = false)
      ∧ (∀ r ∈ (getTopJobs wRPyStr wEmbed wFrameDisk ⟨none, none⟩ "q" 2).1,
          ∃ j v, j ∈ (loadJobsFn ⟨none, none⟩ wFrameDisk).1
            ∧ r = setKey j "score" (Jv.num v))) :=
  ⟨⟨(fun _ h => by cases h), by decide⟩,
    get_top_jobs_frame wRPyStr wEmbed wFrameDisk ⟨none, none⟩ "q" 2
      (fun _ h => by cases h) (by decide)⟩

/-! ### The top-k cosine ranking theorem -/

theorem getTopJobs_fresh (pyStr : RJv → String) (embed : String → List ℝ)
    (jobs : List RDict) (query : String) (k : Nat)
    (hq : ¬ pyStrip query = "") (hjobs : ¬ jobs = [])
    (hmat : ¬ matSize (jobs.map (fun j => embed (docText pyStr j))) = 0) :
    (getTopJobs pyStr embed jobs ⟨none, none⟩ query k).1
      = ((List.insertionSort scoreGE (jobs.zip
          ((jobs.map (fun j => embed (docText pyStr j))).map
            (fun row => cosSim row (embed (pyStrip query)))))).take
          (min k jobs.length)).map
        (fun p => setKey p.1 "score" (Jv.num p.2)) := by
  have hisE : jobs.isEmpty = false := by
    cases jobs with
    | nil => exact absurd rfl hjobs
    | cons a l => rfl
  unfold getTopJobs
  rw [if_neg hq]
  simp only [loadJobsFn, ensureEmbeddings, hisE, Bool.false_eq_true,
    if_false, hmat]

/-- C1: on a fresh cache, a non-empty query and a non-empty posting set
with a non-degenerate embedding matrix, `get_top_jobs` computes for each
posting the cosine similarity `dot(row, q) / (||row||·||q|| + 1e-8)` and
returns exactly the `min(k, len(jobs))` highest-scoring postings, in
descending similarity order, each returned record being a copy of the
posting with its similarity attached under `score`. -/
theorem get_top_jobs_topk (pyStr : RJv → String) (embed : String → List ℝ)
    (jobs : List RDict) (query : String) (k : Nat)
    (hq : ¬ pyStrip query = "") (hjobs : ¬ jobs = [])
    (hmat : ¬ matSize (jobs.map (fun j => embed (docText pyStr j))) = 0) :
    ∃ top rest : List (RDict × ℝ),
      (getTopJobs pyStr embed jobs ⟨none, none⟩ query k).1
          = top.map (fun p => setKey p.1 "score" (Jv.num p.2))
      ∧ top.length = min k jobs.length
      ∧ (top ++ rest).Perm
          (jobs.zip ((jobs.map (fun j => embed (docText pyStr j))).map
            (fun row => cosSim row (embed (pyStrip query)))))
      ∧ List.Sorted scoreGE top
      ∧ (∀ a ∈ top, ∀ b ∈ rest, b.2 ≤ a.2) := by
  have hzlen : (jobs.zip ((jobs.map (fun j => embed (docText pyStr j))).map
      (fun row => cosSim row (embed (pyStrip query))))).length
      = jobs.length := by
    rw [List.length_zip, List.length_map, List.length_map, Nat.min_self]
  refine ⟨(List.insertionSort scoreGE (jobs.zip
      ((jobs.map (fun j => embed (docText pyStr j))).map
        (fun row => cosSim row (embed (pyStrip query)))))).take
        (min k jobs.length),
    (List.insertionSort scoreGE (jobs.zip
      ((jobs.map (fun j => embed (docText pyStr j))).map
        (fun row => cosSim row (embed (pyStrip query)))))).drop
        (min k jobs.length),
    getTopJobs_fresh pyStr embed jobs query k hq hjobs hmat, ?_, ?_, ?_, ?_⟩
  · rw [List.length_take, List.length_insertionSort, hzlen]
    exact Nat.min_eq_left (Nat.min_le_right _ _)
  · rw [List.take_append_drop]
    exact List.perm_insertionSort scoreGE _
  · exact List.Pairwise.sublist (List.take_sublist _ _)
      (List.sorted_insertionSort scoreGE _)
  · intro a ha b hb
    exact (List.sorted_insertionSort scoreGE _).rel_of_mem_take_of_mem_drop
      ha hb

/-- Witness for C1 on a fresh cache, a one-record posting set and a
one-dimensional embedding oracle. -/
theorem get_top_jobs_topk_witness :
    (¬ pyStrip "x" = "") ∧ (¬ wFrameDisk = [])
    ∧ (¬ matSize (wFrameDisk.map (fun j => wEmbed (docText wRPyStr j))) = 0)
    ∧ ∃ top rest : List (RDict × ℝ),
      (getTopJobs wRPyStr wEmbed wFrameDisk ⟨none, none⟩ "x" 2).1
          = top.map (fun p => setKey p.1 "score" (Jv.num p.2))
      ∧ top.length = min 2 wFrameDisk.length
      ∧ (top ++ rest).Perm
          (wFrameDisk.zip ((wFrameDisk.map
            (fun j => wEmbed (docText wRPyStr j))).map
              (fun row => cosSim row (wEmbed (pyStrip "x")))))
      ∧ List.Sorted scoreGE top
      ∧ (∀ a ∈ top, ∀ b ∈ rest, b.2 ≤ a.2) :=
  ⟨by decide, by simp [wFrameDisk], by simp [matSize, wFrameDisk, wEmbed],
    get_top_jobs_topk wRPyStr wEmbed wFrameDisk "x" 2 (by decide)
      (by simp [wFrameDisk]) (by simp [matSize, wFrameDisk, wEmbed])⟩

/-! ### Ranker theorems: the similarity fallback and id filtering -/

/-- The `job_id` string of a well-formed candidate. -/
def candIdStr (c : QDict) : String :=
  match jget c "job_id" with
  | some (.str s) => s
  | _ => ""

/-- Well-formedness of a retrieval candidate, as guaranteed by the
canonical record schema: a nonempty string `job_id`, a numeric score when
present, and string-or-falsy display fields. -/
def candOk (c : QDict) : Prop :=
  (∃ s, jget c "job_id" = some (.str s) ∧ ¬ s = "")
  ∧ (∀ v, jget c "score" = some v → ∃ x, v = Jv.num x)
  ∧ (∀ fk, fk = "title" ∨ fk = "company" ∨ fk = "location" →
      ∀ v, jget c fk = some v → (∃ s2, v = Jv.str s2) ∨ truthy v = false)

theorem candIdStr_eq {c : QDict} {s : String}
    (h : jget c "job_id" = some (.str s)) : candIdStr c = s := by
  unfold candIdStr
  rw [h]

theorem fieldOrEmpty_str (c : QDict) (fk : String)
    (hk : ∀ v, jget c fk = some v →
      (∃ s2, v = Jv.str s2) ∨ truthy v = false) :
    ∃ t, fieldOrEmpty c fk = Jv.str t := by
  unfold fieldOrEmpty
  cases hv : jget c fk with
  | none => exact ⟨"", by simp [truthy]⟩
  | some v =>
    rcases hk v hv with ⟨s2, rfl⟩ | hf
    · by_cases ht : truthy (α := ℚ) (Jv.str s2) = true
      · exact ⟨s2, by simp [ht]⟩
      · rw [Bool.not_eq_true] at ht
        exact ⟨"", by simp [ht]⟩
    · exact ⟨"", by simp [hf]⟩

theorem fallbackStep_ok (strFloat : String → Option ℚ) (c : QDict)
    (hok : candOk c) :
    ∃ jm, fallbackStep strFloat c = .ok jm
      ∧ jm.job_id = candIdStr c ∧ jm.rationale = baselineRationale := by
  obtain ⟨⟨s, hs, _⟩, hscore, hflds⟩ := hok
  obtain ⟨t1, ht1⟩ := fieldOrEmpty_str c "title" (hflds _ (by simp))
  obtain ⟨t2, ht2⟩ := fieldOrEmpty_str c "company" (hflds _ (by simp))
  obtain ⟨t3, ht3⟩ := fieldOrEmpty_str c "location" (hflds _ (by simp))
  have hsc : ∃ x, pyFloat strFloat ((jget c "score").getD (.num 0)) = .ok x := by
    cases hv : jget c "score" with
    | none => exact ⟨0, rfl⟩
    | some v =>
      obtain ⟨x, rfl⟩ := hscore v hv
      exact ⟨x, rfl⟩
  obtain ⟨x, hx⟩ := hsc
  refine ⟨JobMatch.mk s x baselineRationale (some t1) (some t2) (some t3),
    ?_, (candIdStr_eq hs).symm, rfl⟩
  unfold fallbackStep
  rw [hs]
  simp only [Bind.bind, Except.bind, asPyStr, ht1, ht2, ht3, hx]
  rfl

theorem fallbackList_ok (strFloat : String → Option ℚ) :
    ∀ l : List QDict, (∀ c ∈ l, candOk c) →
    ∃ ms, fallbackList strFloat l = .ok ms
      ∧ List.Forall₂ (fun jm c => JobMatch.job_id jm = candIdStr c
          ∧ JobMatch.rationale jm = baselineRationale) ms l
  | [], _ => ⟨[], rfl, List.Forall₂.nil⟩
  | c :: rest, hok => by
    obtain ⟨jm, hjm, hid, hrat⟩ :=
      fallbackStep_ok strFloat c (hok c (by simp))
    obtain ⟨ms, hms, hF⟩ :=
      fallbackList_ok strFloat rest (fun d hd => hok d (by simp [hd]))
    refine ⟨jm :: ms, ?_, List.Forall₂.cons ⟨hid, hrat⟩ hF⟩
    unfold fallbackList
    rw [hjm]
    simp only [Bind.bind, Except.bind]
    rw [hms]
    rfl

theorem byIdBuild_ok (strFloat : String → Option ℚ) :
    ∀ (l : List QDict) (acc : List (QJv × QDict)), (∀ c ∈ l, candOk c) →
    ∃ m, byIdBuild acc l = .ok m
  | [], acc, _ => ⟨acc, rfl⟩
  | c :: rest, acc, hok => by
    obtain ⟨⟨s, hs, _⟩, _, _⟩ := hok c (by simp)
    obtain ⟨m, hm⟩ := byIdBuild_ok strFloat rest
      (byIdInsert acc (Jv.str s) c) (fun d hd => hok d (by simp [hd]))
    refine ⟨m, ?_⟩
    unfold byIdBuild
    rw [hs]
    simpa [hashable] using hm

theorem parseSliceAttempt_empty (jsonLoads : String → Option QJv)
    (c : String)
    (h2 : ∀ sub, bracketSlice c = some sub →
      ∀ xs, ¬ jsonLoads sub = some (Jv.arr xs)) :
    parseSliceAttempt jsonLoads c = [] := by
  unfold parseSliceAttempt
  cases hbs : bracketSlice c with
  | none => rfl
  | some sub =>
    show (match jsonLoads sub with
      | some (Jv.arr xs) => xs
      | _ => ([] : List QJv)) = []
    cases hsl : jsonLoads sub with
    | none => rfl
    | some w =>
      cases w
      case arr xs => exact absurd hsl (h2 sub hbs xs)
      all_goals rfl

theorem parseMatches_empty (jsonLoads : String → Option QJv)
    (content : String)
    (h1 : ∀ xs, ¬ jsonLoads (pyStrip content) = some (Jv.arr xs))
    (h2 : ∀ sub, bracketSlice (pyStrip content) = some sub →
      ∀ xs, ¬ jsonLoads sub = some (Jv.arr xs)) :
    parseMatches jsonLoads content = [] := by
  unfold parseMatches
  by_cases hc : pyStrip content = ""
  · simp [hc]
  · simp only [hc, if_false]
    cases hjl : jsonLoads (pyStrip content) with
    | none => exact parseSliceAttempt_empty jsonLoads _ h2
    | some v =>
      cases v <;> first
        | exact parseSliceAttempt_empty jsonLoads _ h2
        | exact absurd hjl (h1 _)

/-- C2: when neither the direct parse nor the bracket-slice parse of the
oracle output yields a JSON list, ranking degrades (without raising) to
the first `min(5, len(candidates))` candidates in their incoming order,
each annotated with the non-empty generic baseline rationale. -/
theorem rank_fallback (jsonLoads : String → Option QJv)
    (strFloat : String → Option ℚ) (candidates : List QDict)
    (content : String)
    (hok : ∀ c ∈ candidates, candOk c)
    (h1 : ∀ xs, ¬ jsonLoads (pyStrip content) = some (Jv.arr xs))
    (h2 : ∀ sub, bracketSlice (pyStrip content) = some sub →
        ∀ xs, ¬ jsonLoads sub = some (Jv.arr xs)) :
    ∃ ms, buildJobMatches jsonLoads strFloat candidates content = .ok ms
      ∧ ms.length = min 5 candidates.length
      ∧ ¬ baselineRationale = ""
      ∧ List.Forall₂ (fun jm c => JobMatch.job_id jm = candIdStr c
          ∧ JobMatch.rationale jm = baselineRationale) ms
          (candidates.take (min 5 candidates.length)) := by
  obtain ⟨byId, hbyId⟩ := byIdBuild_ok strFloat candidates [] hok
  obtain ⟨ms, hms, hF⟩ := fallbackList_ok strFloat
    (candidates.take (min 5 candidates.length))
    (fun c hc => hok c (List.mem_of_mem_take hc))
  refine ⟨ms, ?_, ?_, by decide, hF⟩
  · unfold buildJobMatches
    rw [parseMatches_empty jsonLoads content h1 h2, hbyId]
    simp only [Bind.bind, Except.bind, List.isEmpty_nil, if_true]
    unfold fallbackMatches
    exact hms
  · rw [hF.length_eq, List.length_take]
    exact Nat.min_eq_left (Nat.min_le_right _ _)

/-! ### The LLM-path id filtering -/

/-- The `job_id` value of an oracle response entry (`Jv.null` when the
entry is not an object or lacks the key). -/
def entryJid (m : QJv) : QJv :=
  match m with
  | .obj fs => (jget fs "job_id").getD .null
  | _ => .null

/-- Whether a response entry survives id filtering: it is an object whose
`job_id` is a nonempty string naming some candidate. -/
def entryKeep (cands : List QDict) (m : QJv) : Bool :=
  match entryJid m with
  | .str s => (!(s == "")) && cands.any (fun c => candIdStr c == s)
  | _ => false

/-- The id string of a surviving entry. -/
def entryJidStr (m : QJv) : String :=
  match entryJid m with
  | .str s => s
  | _ => ""

/-- The `by_id` dict built from candidates with pairwise-distinct ids. -/
def byIdListOf (cands : List QDict) : List (QJv × QDict) :=
  cands.map (fun c => ((Jv.str (candIdStr c) : QJv), c))

theorem byIdBuild_eq : ∀ (cands : List QDict) (acc : List (QJv × QDict)),
    (∀ c ∈ cands, candOk c) →
    ((cands.map candIdStr).Nodup) →
    (∀ c ∈ cands, ∀ p ∈ acc, pyEqScalar p.1 (Jv.str (candIdStr c)) = false) →
    byIdBuild acc cands = .ok (acc ++ byIdListOf cands)
  | [], acc, _, _, _ => by simp [byIdBuild, byIdListOf]
  | c :: rest, acc, hok, hnd, hdisj => by
    obtain ⟨⟨s, hs, _⟩, _, _⟩ := hok c (by simp)
    have hcs : candIdStr c = s := candIdStr_eq hs
    have hfind : (acc.find? (fun p => pyEqScalar p.1 (Jv.str s))).isSome = false := by
      rw [Bool.eq_false_iff]
      intro hsome
      obtain ⟨p, hp⟩ := Option.isSome_iff_exists.mp hsome
      have hmem := List.mem_of_find?_eq_some hp
      have hpred := List.find?_some hp
      have := hdisj c (by simp) p hmem
      rw [hcs] at this
      rw [this] at hpred
      cases hpred
    have hins : byIdInsert acc (Jv.str s) c = acc ++ [(Jv.str s, c)] := by
      unfold byIdInsert
      rw [hfind]
      simp
    have hrest := byIdBuild_eq rest (acc ++ [(Jv.str s, c)])
      (fun d hd => hok d (by simp [hd]))
      (by simp only [List.map_cons, List.nodup_cons] at hnd; exact hnd.2)
      (by
        intro d hd p hp
        rcases List.mem_append.mp hp with hp | hp
        · exact hdisj d (by simp [hd]) p hp
        · have hps : p = (Jv.str s, c) := by simpa using hp
          subst hps
          show pyEqScalar (Jv.str s) (Jv.str (candIdStr d)) = false
          rw [Bool.eq_false_iff]
          intro hc2
          have hsd : s = candIdStr d := by simpa [pyEqScalar] using hc2
          simp only [List.map_cons, List.nodup_cons, hcs] at hnd
          exact hnd.1 (hsd ▸ List.mem_map_of_mem candIdStr hd))
    unfold byIdBuild
    rw [hs]
    simp only [hashable, if_true]
    rw [hins, hrest]
    simp [byIdListOf, hcs]

theorem byIdFind_str (cands : List QDict) (s : String) :
    ((byIdListOf cands).find? (fun p => pyEqScalar p.1 (Jv.str s))).map
        (fun p => p.2)
      = cands.find? (fun c => candIdStr c == s) := by
  induction cands with
  | nil => rfl
  | cons c rest ih =>
    unfold byIdListOf
    simp only [List.map_cons, List.find?_cons]
    have hped : pyEqScalar ((Jv.str (candIdStr c)) : QJv) (Jv.str s)
        = (candIdStr c == s) := rfl
    rw [hped]
    cases h : (candIdStr c == s) with
    | true => rfl
    | false => exact ih

theorem byIdFind_nonstr (cands : List QDict) (k : QJv)
    (hk : ∀ t, ¬ k = Jv.str t) :
    (byIdListOf cands).find? (fun p => pyEqScalar p.1 k) = none := by
  rw [List.find?_eq_none]
  intro p hp
  obtain ⟨c, _, rfl⟩ := List.mem_map.mp hp
  cases k
  case str t => exact absurd rfl (hk t)
  all_goals simp [pyEqScalar]

theorem entryKeep_falsy (cands : List QDict) (m : QJv)
    (h : truthy (entryJid m) = false) : entryKeep cands m = false := by
  unfold entryKeep
  cases hj : entryJid m <;> try rfl
  case str t =>
    rw [hj] at h
    have ht : t = "" := by simpa [truthy] using h
    subst ht
    simp

theorem isOk_exists {e : Except String ℚ} (h : e.isOk = true) :
    ∃ x, e = .ok x := by
  cases e with
  | ok x => exact ⟨x, rfl⟩
  | error m => simp [Except.isOk, Except.toBool] at h

theorem any_of_find?_some {p : QDict → Bool} {l : List QDict} {a : QDict}
    (h : l.find? p = some a) : l.any p = true :=
  List.any_eq_true.mpr ⟨a, List.mem_of_find?_eq_some h, List.find?_some h⟩

theorem any_of_find?_none {p : QDict → Bool} {l : List QDict}
    (h : l.find? p = none) : l.any p = false := by
  rw [Bool.eq_false_iff]
  intro hany
  obtain ⟨x, hx, hp⟩ := List.any_eq_true.mp hany
  exact (List.find?_eq_none.mp h x hx) hp

theorem processEntries_ok (strFloat : String → Option ℚ)
    (candidates : List QDict) (hok : ∀ c ∈ candidates, candOk c) :
    ∀ (ms : List QJv) (acc : List JobMatch),
    (∀ m ∈ ms, ∃ fs, m = Jv.obj fs) →
    (∀ m ∈ ms, truthy (entryJid m) = true → hashable (entryJid m) = true) →
    (∀ m ∈ ms, ∀ fs, m = Jv.obj fs → ∀ v, jget fs "score" = some v →
      (pyFloat strFloat v).isOk = true) →
    (∀ m ∈ ms, ∀ fs, m = Jv.obj fs → ∀ v, jget fs "rationale" = some v →
      ∃ s2, v = Jv.str s2) →
    ∃ res, ms.foldlM (processEntry strFloat (byIdListOf candidates)) acc
        = .ok res
      ∧ res.map JobMatch.job_id
        = acc.map JobMatch.job_id
          ++ (ms.filter (entryKeep candidates)).map entryJidStr
  | [], acc, _, _, _, _ => ⟨acc, rfl, by simp⟩
  | m :: rest, acc, hobj, hhash, hscore, hrat => by
    obtain ⟨fs, rfl⟩ := hobj m (by simp)
    have hrest := fun acc2 => processEntries_ok strFloat candidates hok rest
      acc2 (fun x hx => hobj x (by simp [hx]))
      (fun x hx => hhash x (by simp [hx]))
      (fun x hx => hscore x (by simp [hx]))
      (fun x hx => hrat x (by simp [hx]))
    have hstep : ∀ acc2 res2,
        processEntry strFloat (byIdListOf candidates) acc (Jv.obj fs)
          = .ok acc2 →
        rest.foldlM (processEntry strFloat (byIdListOf candidates)) acc2
          = .ok res2 →
        (Jv.obj fs :: rest).foldlM
          (processEntry strFloat (byIdListOf candidates)) acc = .ok res2 := by
      intro acc2 res2 h1 h2
      rw [List.foldlM_cons, h1]
      simpa [Bind.bind, Except.bind] using h2
    by_cases htr : truthy (entryJid (Jv.obj fs)) = true
    · have hh : hashable (entryJid (Jv.obj fs)) = true := hhash _ (by simp) htr
      cases hjv : entryJid (Jv.obj fs) with
      | null => rw [hjv] at htr; exact absurd htr (by simp [truthy])
      | arr l => rw [hjv] at hh; exact absurd hh (by simp [hashable])
      | obj l => rw [hjv] at hh; exact absurd hh (by simp [hashable])
      | bool b =>
        have hpe : processEntry strFloat (byIdListOf candidates) acc
            (Jv.obj fs) = .ok acc := by
          simp only [processEntry]
          have hjid : (jget fs "job_id").getD Jv.null = Jv.bool b := hjv
          rw [hjid]
          rw [hjv] at htr
          simp only [htr, if_true, byIdGet, hashable, if_true,
            byIdFind_nonstr candidates (Jv.bool b) (fun t h => by cases h),
            Bind.bind, Except.bind]
          rfl
        obtain ⟨res, hres, hmap⟩ := hrest acc
        refine ⟨res, hstep acc res hpe hres, ?_⟩
        rw [hmap, List.filter_cons_of_neg (by simp [entryKeep, hjv])]
      | num x =>
        have hpe : processEntry strFloat (byIdListOf candidates) acc
            (Jv.obj fs) = .ok acc := by
          simp only [processEntry]
          have hjid : (jget fs "job_id").getD Jv.null = Jv.num x := hjv
          rw [hjid]
          rw [hjv] at htr
          simp only [htr, if_true, byIdGet, hashable, if_true,
            byIdFind_nonstr candidates (Jv.num x) (fun t h => by cases h),
            Bind.bind, Except.bind]
          rfl
        obtain ⟨res, hres, hmap⟩ := hrest acc
        refine ⟨res, hstep acc res hpe hres, ?_⟩
        rw [hmap, List.filter_cons_of_neg (by simp [entryKeep, hjv])]
      | str s =>
        have hjid : (jget fs "job_id").getD Jv.null = Jv.str s := hjv
        have hsne : ¬ s = "" := by
          rw [hjv] at htr
          simpa [truthy] using htr
        cases hfind : candidates.find? (fun c => candIdStr c == s) with
        | none =>
          have hpe : processEntry strFloat (byIdListOf candidates) acc
              (Jv.obj fs) = .ok acc := by
            simp only [processEntry]
            rw [hjid]
            rw [hjv] at htr
            simp only [htr, if_true, byIdGet, hashable, if_true,
              Bind.bind, Except.bind]
            have := byIdFind_str candidates s
            rw [hfind] at this
            rw [this]
          obtain ⟨res, hres, hmap⟩ := hrest acc
          refine ⟨res, hstep acc res hpe hres, ?_⟩
          rw [hmap, List.filter_cons_of_neg ?_]
          simp only [entryKeep, hjv, any_of_find?_none hfind,
            Bool.and_false]
          exact Bool.false_ne_true
        | some job =>
          have hjobmem := List.mem_of_find?_eq_some hfind
          obtain ⟨_, hjsc, hjfld⟩ := hok job hjobmem
          have hsc : ∃ x, pyFloat strFloat
              (match jget fs "score" with
                | some v => v
                | none => (jget job "score").getD (.num 0)) = .ok x := by
            cases hv : jget fs "score" with
            | some v => exact isOk_exists (hscore _ (by simp) fs rfl v hv)
            | none =>
              cases hw : jget job "score" with
              | none => exact ⟨0, rfl⟩
              | some w =>
                obtain ⟨x, rfl⟩ := hjsc w hw
                exact ⟨x, rfl⟩
          obtain ⟨x, hx⟩ := hsc
          have hratS : ∃ s2, (jget fs "rationale").getD (Jv.str "") = Jv.str s2 := by
            cases hv : jget fs "rationale" with
            | none => exact ⟨"", rfl⟩
            | some v =>
              obtain ⟨s2, rfl⟩ := hrat _ (by simp) fs rfl v hv
              exact ⟨s2, rfl⟩
          obtain ⟨s2, hs2⟩ := hratS
          obtain ⟨t1, ht1⟩ := fieldOrEmpty_str job "title" (hjfld _ (by simp))
          obtain ⟨t2, ht2⟩ := fieldOrEmpty_str job "company" (hjfld _ (by simp))
          obtain ⟨t3, ht3⟩ := fieldOrEmpty_str job "location" (hjfld _ (by simp))
          have hpe : processEntry strFloat (byIdListOf candidates) acc
              (Jv.obj fs)
              = .ok (acc ++ [JobMatch.mk s x s2 (some t1) (some t2)
                  (some t3)]) := by
            simp only [processEntry]
            rw [hjid]
            rw [hjv] at htr
            simp only [htr, if_true, byIdGet, hashable, if_true,
              Bind.bind, Except.bind]
            have hfs := byIdFind_str candidates s
            rw [hfind] at hfs
            rw [hfs]
            simp only [hx, hs2, ht1, ht2, ht3, asPyStr, Bind.bind,
              Except.bind]
            rfl
          obtain ⟨res, hres, hmap⟩ :=
            hrest (acc ++ [JobMatch.mk s x s2 (some t1) (some t2) (some t3)])
          refine ⟨res, hstep _ res hpe hres, ?_⟩
          rw [hmap, List.filter_cons_of_pos ?_]
          · simp only [List.map_append, List.map_cons]
            have hjstr : entryJidStr (Jv.obj fs) = s := by
              simp [entryJidStr, hjv]
            rw [hjstr]
            simp
          · simp only [entryKeep, hjv, any_of_find?_some hfind,
              Bool.and_true, Bool.not_eq_true', beq_eq_false_iff_ne, ne_eq]
            simpa using hsne
    · rw [Bool.not_eq_true] at htr
      have hpe : processEntry strFloat (byIdListOf candidates) acc
          (Jv.obj fs) = .ok acc := by
        simp only [processEntry]
        have hjid : entryJid (Jv.obj fs) = (jget fs "job_id").getD Jv.null :=
          rfl
        rw [← hjid, htr]
        simp
      obtain ⟨res, hres, hmap⟩ := hrest acc
      refine ⟨res, hstep acc res hpe hres, ?_⟩
      rw [hmap, List.filter_cons_of_neg (by simp [entryKeep_falsy _ _ htr])]

/-- A `json.loads` oracle that parses exactly the text
`["x"]` to a singleton list holding a bare string. -/
def cxJson : String → Option QJv := fun s =>
  if s = "[\x22x\x22]" then some (Jv.arr [Jv.str "x"]) else none

/-- Counterexample to C3 as stated: the oracle response parses to the
non-empty list `["x"]`, whose single entry has no `job_id`; the claim says
such an entry is dropped silently (so the ranked list would be `[]`), but
the code raises `AttributeError` at `m.get("job_id")` because the entry is
not a dict. -/
theorem rank_nondict_entry_counterexample :
    parseMatches cxJson "[\x22x\x22]" = [Jv.str "x"]
    ∧ buildJobMatches cxJson (fun _ => none) [[("job_id", Jv.str "a")]]
        "[\x22x\x22]" = .error "AttributeError: get" :=
  ⟨rfl, rfl⟩

/-- C3 (amended): for every well-formed candidate set (distinct nonempty
string ids, numeric-or-absent scores, string-or-falsy display fields) and
every oracle response parsed as a non-empty list of JSON objects — with
hashable truthy `job_id` values, float-convertible scores and string
rationales where present — the final ranked list contains exactly those
response entries whose `job_id` names a candidate, in the response's
order; entries with a missing, falsy or unknown id are dropped silently,
and candidates the oracle omitted are not re-merged. -/
theorem rank_id_filtering (jsonLoads : String → Option QJv)
    (strFloat : String → Option ℚ) (candidates : List QDict)
    (content : String)
    (hok : ∀ c ∈ candidates, candOk c)
    (hnd : (candidates.map candIdStr).Nodup)
    (hms : ¬ parseMatches jsonLoads content = [])
    (hobj : ∀ m ∈ parseMatches jsonLoads content, ∃ fs, m = Jv.obj fs)
    (hhash : ∀ m ∈ parseMatches jsonLoads content,
      truthy (entryJid m) = true → hashable (entryJid m) = true)
    (hscore : ∀ m ∈ parseMatches jsonLoads content, ∀ fs, m = Jv.obj fs →
      ∀ v, jget fs "score" = some v → (pyFloat strFloat v).isOk = true)
    (hrat : ∀ m ∈ parseMatches jsonLoads content, ∀ fs, m = Jv.obj fs →
      ∀ v, jget fs "rationale" = some v → ∃ s2, v = Jv.str s2) :
    ∃ res, buildJobMatches jsonLoads strFloat candidates content = .ok res
      ∧ res.map JobMatch.job_id
        = ((parseMatches jsonLoads content).filter
            (entryKeep candidates)).map entryJidStr := by
  obtain ⟨res, hres, hmap⟩ := processEntries_ok strFloat candidates hok
    (parseMatches jsonLoads content) [] hobj hhash hscore hrat
  refine ⟨res, ?_, by simpa using hmap⟩
  unfold buildJobMatches
  rw [byIdBuild_eq candidates [] hok hnd (by simp)]
  simp only [Bind.bind, Except.bind, List.nil_append]
  rw [List.isEmpty_eq_false.mpr hms]
  simpa using hres

/-- The `json.loads` oracle of the C2 witness (nothing parses). -/
def wNoJson : String → Option QJv := fun _ => none

/-- The `float()` string-conversion oracle of the ranker witnesses. -/
def wNoFloat : String → Option ℚ := fun _ => none

/-- A well-formed candidate record. -/
def wCand : QDict := [("job_id", Jv.str "a")]

/-- Witness for C2: an unparseable oracle output over one candidate. -/
theorem rank_fallback_witness :
    ((∀ c ∈ ([wCand] : List QDict), candOk c)
      ∧ (∀ xs, ¬ wNoJson (pyStrip "junk") = some (Jv.arr xs))
      ∧ (∀ sub, bracketSlice (pyStrip "junk") = some sub →
          ∀ xs, ¬ wNoJson sub = some (Jv.arr xs)))
    ∧ ∃ ms, buildJobMatches wNoJson wNoFloat [wCand] "junk" = .ok ms
      ∧ ms.length = min 5 ([wCand] : List QDict).length
      ∧ ¬ baselineRationale = ""
      ∧ List.Forall₂ (fun jm c => JobMatch.job_id jm = candIdStr c
          ∧ JobMatch.rationale jm = baselineRationale) ms
          (([wCand] : List QDict).take
            (min 5 ([wCand] : List QDict).length)) := by
  have hok : ∀ c ∈ ([wCand] : List QDict), candOk c := by
    intro c hc
    have hc2 : c = wCand := by simpa using hc
    subst hc2
    refine ⟨⟨"a", rfl, by decide⟩, fun v hv => Option.noConfusion hv,
      fun fk hfk v hv => ?_⟩
    rcases hfk with rfl | rfl | rfl <;> exact Option.noConfusion hv
  have h1 : ∀ xs, ¬ wNoJson (pyStrip "junk") = some (Jv.arr xs) :=
    fun _ h => Option.noConfusion h
  have h2 : ∀ sub, bracketSlice (pyStrip "junk") = some sub →
      ∀ xs, ¬ wNoJson sub = some (Jv.arr xs) :=
    fun _ hs => Option.noConfusion hs
  exact ⟨⟨hok, h1, h2⟩, rank_fallback wNoJson wNoFloat [wCand] "junk" hok h1 h2⟩

/-- A second well-formed candidate. -/
def wCandB : QDict := [("job_id", Jv.str "b")]

/-- The candidate set of the C3 witness. -/
def wCands3 : List QDict := [wCand, wCandB]

/-- A response entry naming candidate `b`. -/
def wE1 : QJv := Jv.obj [("job_id", Jv.str "b")]

/-- A response entry with an unknown id. -/
def wE2 : QJv := Jv.obj [("job_id", Jv.str "zz")]

/-- The `json.loads` oracle of the C3 witness. -/
def wJson3 : String → Option QJv := fun s =>
  if s = "ok" then some (Jv.arr [wE1, wE2]) else none

/-- Witness for the amended C3: of two response entries, only the one
naming an existing candidate survives, in order. -/
theorem rank_id_filtering_witness :
    ((∀ c ∈ wCands3, candOk c)
      ∧ (wCands3.map candIdStr).Nodup
      ∧ ¬ parseMatches wJson3 "ok" = []
      ∧ (∀ m ∈ parseMatches wJson3 "ok", ∃ fs, m = Jv.obj fs))
    ∧ ∃ res, buildJobMatches wJson3 wNoFloat wCands3 "ok" = .ok res
      ∧ res.map JobMatch.job_id
        = ((parseMatches wJson3 "ok").filter (entryKeep wCands3)).map
            entryJidStr := by
  have hplist : parseMatches wJson3 "ok" = [wE1, wE2] := rfl
  have hok : ∀ c ∈ wCands3, candOk c := by
    intro c hc
    have hc2 : c = wCand ∨ c = wCandB := by simpa [wCands3] using hc
    rcases hc2 with rfl | rfl
    · refine ⟨⟨"a", rfl, by decide⟩, fun v hv => Option.noConfusion hv,
        fun fk hfk v hv => ?_⟩
      rcases hfk with rfl | rfl | rfl <;> exact Option.noConfusion hv
    · refine ⟨⟨"b", rfl, by decide⟩, fun v hv => Option.noConfusion hv,
        fun fk hfk v hv => ?_⟩
      rcases hfk with rfl | rfl | rfl <;> exact Option.noConfusion hv
  have hnd : (wCands3.map candIdStr).Nodup := by decide
  have hms : ¬ parseMatches wJson3 "ok" = [] := by
    rw [hplist]
    exact fun h => List.noConfusion h
  have hobj : ∀ m ∈ parseMatches wJson3 "ok", ∃ fs, m = Jv.obj fs := by
    rw [hplist]
    intro m hm
    have hm2 : m = wE1 ∨ m = wE2 := by simpa using hm
    rcases hm2 with rfl | rfl <;> exact ⟨_, rfl⟩
  have hhash : ∀ m ∈ parseMatches wJson3 "ok",
      truthy (entryJid m) = true → hashable (entryJid m) = true := by
    rw [hplist]
    intro m hm _
    have hm2 : m = wE1 ∨ m = wE2 := by simpa using hm
    rcases hm2 with rfl | rfl <;> rfl
  have hscore : ∀ m ∈ parseMatches wJson3 "ok", ∀ fs, m = Jv.obj fs →
      ∀ v, jget fs "score" = some v → (pyFloat wNoFloat v).isOk = true := by
    rw [hplist]
    intro m hm fs hfs v hv
    have hm2 : m = wE1 ∨ m = wE2 := by simpa using hm
    rcases hm2 with rfl | rfl <;>
      · cases (Jv.obj.injEq _ _).mp ((rfl : Jv.obj _ = Jv.obj _).symm.trans hfs).symm
        exact Option.noConfusion hv
  have hrat : ∀ m ∈ parseMatches wJson3 "ok", ∀ fs, m = Jv.obj fs →
      ∀ v, jget fs "rationale" = some v → ∃ s2, v = Jv.str s2 := by
    rw [hplist]
    intro m hm fs hfs v hv
    have hm2 : m = wE1 ∨ m = wE2 := by simpa using hm
    rcases hm2 with rfl | rfl <;>
      · cases (Jv.obj.injEq _ _).mp ((rfl : Jv.obj _ = Jv.obj _).symm.trans hfs).symm
        exact Option.noConfusion hv
  exact ⟨⟨hok, hnd, hms, hobj⟩,
    rank_id_filtering wJson3 wNoFloat wCands3 "ok" hok hnd hms hobj hhash
      hscore hrat⟩

/-! ### Job store cache semantics -/

/-- C5: with a readable persisted snapshot and `force_refresh=false`,
`load_and_clean_jobs` returns the snapshot content unchanged, leaves the
environment untouched and invokes no source adapter (empty call log); and
when the snapshot exists but reading/parsing it raises, the load behaves
exactly like a forced refresh instead of propagating the error. -/
theorem load_jobs_cache_semantics :
    (∀ (o : LoadOracles) (env : JobsEnv) (queries : Option (List String))
        (d : List QDict),
      env.cleanSnapshot = some (some d) →
      loadAndCleanJobs o env false queries = (.ok d, env, []))
    ∧ (∀ (o : LoadOracles) (env : JobsEnv) (queries : Option (List String)),
      env.cleanSnapshot = some none →
      loadAndCleanJobs o env false queries
        = loadAndCleanJobs o env true queries) := by
  constructor
  · intro o env qs d h
    unfold loadAndCleanJobs
    rw [h]
  · intro o env qs h
    unfold loadAndCleanJobs
    rw [h]

/-- Trivial oracles for the C5 witness. -/
def wOracles : LoadOracles :=
  ⟨none, none, none, none, fun _ _ => HttpOut.resp 500 none,
    fun _ _ _ => HttpOut.resp 500 none, fun s => s, fun _ => "",
    fun _ => .ok []⟩

/-- A persisted snapshot record. -/
def wSnapRec : QDict := [("job_id", Jv.str "x")]

/-- Witness for C5: a readable snapshot short-circuits; an unreadable one
degrades to the refresh path. -/
theorem load_jobs_cache_semantics_witness :
    ((JobsEnv.mk (some (some [wSnapRec])) none).cleanSnapshot
        = some (some [wSnapRec])
      ∧ loadAndCleanJobs wOracles ⟨some (some [wSnapRec]), none⟩ false none
        = (.ok [wSnapRec], ⟨some (some [wSnapRec]), none⟩, []))
    ∧ ((JobsEnv.mk (some none) none).cleanSnapshot = some none
      ∧ loadAndCleanJobs wOracles ⟨some none, none⟩ false none
        = loadAndCleanJobs wOracles ⟨some none, none⟩ true none) :=
  ⟨⟨rfl, load_jobs_cache_semantics.1 wOracles ⟨some (some [wSnapRec]), none⟩
      none [wSnapRec] rfl⟩,
    ⟨rfl, load_jobs_cache_semantics.2 wOracles ⟨some none, none⟩ none rfl⟩⟩

/-! ### Source adapter error behavior -/

theorem jsearchPages_allBad (http : String → Nat → HttpOut) (q : String)
    (acc : List QJv) :
    ∀ pages : List Nat,
    (∀ p ∈ pages, ∃ st body, http q p = .resp st body ∧ 400 ≤ st ∧ ¬ st = 401) →
    jsearchPages http q acc pages = (.more acc, pages.map (fun p => (q, p)))
  | [], _ => rfl
  | p :: ps, h => by
    obtain ⟨st, body, hst, h400, h401⟩ := h p (by simp)
    unfold jsearchPages
    rw [hst]
    simp only [h401, if_false, if_pos h400,
      jsearchPages_allBad http q acc ps (fun x hx => h x (by simp [hx])),
      List.map_cons]

theorem jsearchQueries_allBad (http : String → Nat → HttpOut)
    (pages : List Nat) (acc : List QJv) :
    ∀ qs : List String,
    (∀ q p, ∃ st body, http q p = .resp st body ∧ 400 ≤ st ∧ ¬ st = 401) →
    jsearchQueries http pages acc qs
      = (.more acc, qs.flatMap (fun q => pages.map (fun p => (q, p))))
  | [], _ => rfl
  | q :: qs, h => by
    unfold jsearchQueries
    rw [jsearchPages_allBad http q acc pages (fun p _ => h q p)]
    dsimp only
    rw [jsearchQueries_allBad http pages acc qs h]
    simp

theorem adzunaPages_allBad (http : String → String → Nat → HttpOut)
    (what wher : String) (acc : List QJv) :
    ∀ pages : List Nat,
    (∀ p ∈ pages, ∃ st body, http what wher p = .resp st body ∧ 400 ≤ st) →
    adzunaPages http what wher acc pages
      = (.more acc, pages.map (fun p => (what, wher, p)))
  | [], _ => rfl
  | p :: ps, h => by
    obtain ⟨st, body, hst, h400⟩ := h p (by simp)
    unfold adzunaPages
    rw [hst]
    simp only [if_pos h400,
      adzunaPages_allBad http what wher acc ps (fun x hx => h x (by simp [hx])),
      List.map_cons]

theorem adzunaQueries_allBad (http : String → String → Nat → HttpOut)
    (pages : List Nat) (acc : List QJv) :
    ∀ qs : List String,
    (∀ w l p, ∃ st body, http w l p = .resp st body ∧ 400 ≤ st) →
    adzunaQueries http pages acc qs
      = (.more acc, qs.flatMap (fun q => pages.map
          (fun p => ((splitQueryLocation q).1, (splitQueryLocation q).2, p))))
  | [], _ => rfl
  | q :: qs, h => by
    unfold adzunaQueries
    dsimp only
    rw [adzunaPages_allBad http (splitQueryLocation q).1
        (splitQueryLocation q).2 acc pages (fun p _ => h _ _ p)]
    dsimp only
    rw [adzunaQueries_allBad http pages acc qs h]
    simp

theorem pageRange_succ (m : Nat) :
    pageRange (m + 1) = 1 :: (pageRange m).map (fun p => p + 1) := by
  unfold pageRange
  rw [List.range_succ_eq_map]
  simp [List.map_map]

/-- Counterexample to C6 as stated: a 200 response whose body fails to
parse makes the JSearch fetcher raise `json.JSONDecodeError` past its
boundary (the claim says every failure degrades to a list), and an Adzuna
401 on page 1 does not short-circuit — the fetcher issues the page-2
request as well (the claim says an authentication failure stops the
source immediately). -/
theorem fetchers_error_counterexample :
    (fetchJsearch (some "k") (fun _ _ => HttpOut.resp 200 none) ["q"] 1).1
        = .error "JSONDecodeError"
    ∧ (fetchAdzuna (some "i") (some "k") (fun _ _ _ => HttpOut.resp 401 none)
        ["q"] 2).2 = [("q", "", 1), ("q", "", 2)] :=
  ⟨rfl, rfl⟩

/-- C6 (amended): a missing credential yields `[]` with no request; a
JSearch 401 short-circuits immediately, returning what was fetched so far;
non-2xx pages (other than a JSearch 401) are skipped page by page and the
adapters return a list without raising; but a transport exception or a
malformed 200 body propagates as an error past the adapter boundary, and
Adzuna treats 401 like any other failed page and keeps requesting. -/
theorem fetchers_degrade_spec :
    (∀ (http : String → Nat → HttpOut) (qs : List String) (n : Nat),
      fetchJsearch none http qs n = (.ok [], []))
    ∧ (∀ (http : String → String → Nat → HttpOut) (qs : List String) (n : Nat),
      fetchAdzuna none (some "k") http qs n = (.ok [], []))
    ∧ (∀ (http : String → Nat → HttpOut) (q : String) (qs : List String)
        (m : Nat) (body : Option QJv),
      http q 1 = .resp 401 body →
      fetchJsearch (some "k") http (q :: qs) (m + 1) = (.ok [], [(q, 1)]))
    ∧ (∀ (http : String → Nat → HttpOut) (qs : List String) (n : Nat),
      (∀ q p, ∃ st body, http q p = .resp st body ∧ 400 ≤ st ∧ ¬ st = 401) →
      fetchJsearch (some "k") http qs n
        = (.ok [], qs.flatMap (fun q => (pageRange n).map (fun p => (q, p)))))
    ∧ (∀ (http : String → Nat → HttpOut) (q : String) (qs : List String)
        (m : Nat) (msg : String),
      http q 1 = .exn msg →
      fetchJsearch (some "k") http (q :: qs) (m + 1)
        = (.error msg, [(q, 1)]))
    ∧ (∀ (http : String → Nat → HttpOut) (q : String) (qs : List String)
        (m : Nat),
      http q 1 = .resp 200 none →
      fetchJsearch (some "k") http (q :: qs) (m + 1)
        = (.error "JSONDecodeError", [(q, 1)]))
    ∧ (∀ (http : String → String → Nat → HttpOut) (qs : List String)
        (n : Nat),
      (∀ w l p, ∃ st body, http w l p = .resp st body ∧ 400 ≤ st) →
      fetchAdzuna (some "i") (some "k") http qs n
        = (.ok [], qs.flatMap (fun q => (pageRange n).map
            (fun p => ((splitQueryLocation q).1, (splitQueryLocation q).2, p))))) := by
  refine ⟨fun http qs n => rfl, fun http qs n => rfl, ?_, ?_, ?_, ?_, ?_⟩
  · intro http q qs m body h1
    show (match jsearchQueries http (pageRange (m + 1)) [] (q :: qs) with
      | (.more acc, log) => (Except.ok acc, log)
      | (.stop acc, log) => (Except.ok acc, log)
      | (.fail msg, log) => (Except.error msg, log)) = (.ok [], [(q, 1)])
    rw [pageRange_succ]
    unfold jsearchQueries
    unfold jsearchPages
    rw [h1]
    simp
  · intro http qs n h
    show (match jsearchQueries http (pageRange n) [] qs with
      | (.more acc, log) => (Except.ok acc, log)
      | (.stop acc, log) => (Except.ok acc, log)
      | (.fail msg, log) => (Except.error msg, log)) = _
    rw [jsearchQueries_allBad http (pageRange n) [] qs h]
  · intro http q qs m msg h1
    show (match jsearchQueries http (pageRange (m + 1)) [] (q :: qs) with
      | (.more acc, log) => (Except.ok acc, log)
      | (.stop acc, log) => (Except.ok acc, log)
      | (.fail msg, log) => (Except.error msg, log)) = _
    rw [pageRange_succ]
    unfold jsearchQueries
    unfold jsearchPages
    rw [h1]
  · intro http q qs m h1
    show (match jsearchQueries http (pageRange (m + 1)) [] (q :: qs) with
      | (.more acc, log) => (Except.ok acc, log)
      | (.stop acc, log) => (Except.ok acc, log)
      | (.fail msg, log) => (Except.error msg, log)) = _
    rw [pageRange_succ]
    unfold jsearchQueries
    unfold jsearchPages
    rw [h1]
    simp
  · intro http qs n h
    show (match adzunaQueries http (pageRange n) [] qs with
      | (.more acc, log) => (Except.ok acc, log)
      | (.stop acc, log) => (Except.ok acc, log)
      | (.fail msg, log) => (Except.error msg, log)) = _
    rw [adzunaQueries_allBad http (pageRange n) [] qs h]

/-- Witness for the amended C6 at concrete oracles. -/
theorem fetchers_degrade_spec_witness :
    ((fun (_ : String) (_ : Nat) => HttpOut.resp 401 none) "q" 1
        = HttpOut.resp 401 none
      ∧ fetchJsearch (some "k")
          (fun _ _ => HttpOut.resp 401 none) ["q", "r"] 3
        = (.ok [], [("q", 1)]))
    ∧ ((∀ q p, ∃ st body,
          (fun (_ : String) (_ : Nat) => HttpOut.resp 500 none) q p
            = HttpOut.resp st body ∧ 400 ≤ st ∧ ¬ st = 401)
      ∧ fetchJsearch (some "k") (fun _ _ => HttpOut.resp 500 none) ["q"] 2
        = (.ok [], (["q"] : List String).flatMap
            (fun q => (pageRange 2).map (fun p => (q, p)))))
    ∧ ((∀ w l p, ∃ st body,
          (fun (_ _ : String) (_ : Nat) => HttpOut.resp 401 none) w l p
            = HttpOut.resp st body ∧ 400 ≤ st)
      ∧ fetchAdzuna (some "i") (some "k")
          (fun _ _ _ => HttpOut.resp 401 none) ["q"] 2
        = (.ok [], (["q"] : List String).flatMap
            (fun q => (pageRange 2).map
              (fun p => ((splitQueryLocation q).1,
                (splitQueryLocation q).2, p))))) :=
  ⟨⟨rfl, fetchers_degrade_spec.2.2.1 (fun _ _ => HttpOut.resp 401 none)
      "q" ["r"] 2 none rfl⟩,
    ⟨fun q p => ⟨500, none, rfl, by decide, by decide⟩,
      fetchers_degrade_spec.2.2.2.1 (fun _ _ => HttpOut.resp 500 none)
        ["q"] 2 (fun q p => ⟨500, none, rfl, by decide, by decide⟩)⟩,
    ⟨fun w l p => ⟨401, none, rfl, by decide⟩,
      fetchers_degrade_spec.2.2.2.2.2.2
        (fun _ _ _ => HttpOut.resp 401 none) ["q"] 2
        (fun w l p => ⟨401, none, rfl, by decide⟩)⟩⟩

/-! ### Crawl fallback chain and link budget -/

def isLinkStep : CrawlOp → Bool
  | .linkStep _ => true
  | _ => false

theorem followLinks_budget (O : CrawlOracles) (c : String) (budget : Nat) :
    ∀ (links seen : List String) (followed : Nat) (acc : List QDict),
      followed < budget →
      ((followLinks O c budget seen followed acc links).2.countP isLinkStep)
        + followed ≤ budget := by
  intro links
  induction links with
  | nil =>
    intro seen followed acc h
    simpa [followLinks] using h.le
  | cons u rest ih =>
    intro seen followed acc h
    by_cases hs : seen.contains u = true
    · simp only [followLinks]
      rw [if_pos hs]
      exact ih seen followed acc h
    · simp only [followLinks]
      rw [if_neg hs]
      split
      · split
        · simp [isLinkStep]
          omega
        · split
          · simp [isLinkStep]
            omega
          · rename_i x1 s heq1 x2 js heq2 hnb
            dsimp only
            have := ih (u :: seen) (followed + 1) (acc ++ js) (by omega)
            simp [List.countP_append, List.countP_cons, List.countP_nil,
              isLinkStep] at this ⊢
            omega
      · split
        · simp [isLinkStep]
          omega
        · split
          · simp [isLinkStep]
            omega
          · rename_i x1 s heq1 x2 js heq2 hnb
            dsimp only
            have := ih (u :: seen) (followed + 1) (acc ++ js) (by omega)
            simp [List.countP_append, List.countP_cons, List.countP_nil,
              isLinkStep] at this ⊢
            omega
      · split
        · have := ih (u :: seen) followed acc h
          simp [List.countP_cons, isLinkStep] at this ⊢
          omega
        · rename_i x1 heq1 x2 html heq2
          split
          · simp [isLinkStep]
            omega
          · rename_i hnb
            dsimp only
            have := ih (u :: seen) (followed + 1)
              (if (O.extractJsonld html).isEmpty then acc
               else acc ++ (O.extractJsonld html).map (postingToClean O c u))
              (by omega)
            simp [List.countP_append, List.countP_cons, List.countP_nil,
              isLinkStep] at this ⊢
            omega

theorem detectAts_empty : detectAts "" = ("unknown", none) := by decide

set_option maxHeartbeats 1600000 in
/-- C7: a target whose careers URL is a Lever or Greenhouse board with a
slug takes only the ATS endpoint path — the log is exactly the one ATS
call, with no page fetch, JSON-LD scan or link step; a non-ATS target
scans the start page for JSON-LD and, only when that yields nothing,
follows collected same-domain keyword links; the number of link steps per
target never exceeds the follow budget. -/
theorem crawl_fallback_chain :
    (∀ (O : CrawlOracles) (fb : Nat) (t : CrawlTarget) (s : String),
      detectAts (pyStrip t.careersUrl) = ("lever", some s) →
      crawlOne O fb t = (crawlLever O s (pyStrip t.company), [.leverApi s]))
    ∧ (∀ (O : CrawlOracles) (fb : Nat) (t : CrawlTarget) (s : String),
      detectAts (pyStrip t.careersUrl) = ("greenhouse", some s) →
      crawlOne O fb t
        = (crawlGreenhouse O s (pyStrip t.company), [.greenhouseApi s]))
    ∧ (∀ (O : CrawlOracles) (fb : Nat) (t : CrawlTarget) (html : String),
      detectAts (pyStrip t.careersUrl) = ("unknown", none) →
      ¬ pyStrip t.careersUrl = "" →
      O.fetchHtml (pyStrip t.careersUrl) = .ok html →
      ¬ (O.extractJsonld html).isEmpty = true →
      crawlOne O fb t = (.ok ((O.extractJsonld html).map
          (postingToClean O (pyStrip t.company) (pyStrip t.careersUrl))),
        [.pageFetch (pyStrip t.careersUrl), .jsonldScan (pyStrip t.careersUrl)]))
    ∧ (∀ (O : CrawlOracles) (fb : Nat) (t : CrawlTarget) (html : String),
      detectAts (pyStrip t.careersUrl) = ("unknown", none) →
      ¬ pyStrip t.careersUrl = "" →
      O.fetchHtml (pyStrip t.careersUrl) = .ok html →
      (O.extractJsonld html).isEmpty = true →
      crawlOne O fb t
        = (let r := followLinks O (pyStrip t.company) fb [] 0 []
            (collectLinks O (pyStrip t.careersUrl) html)
           (r.1, [CrawlOp.pageFetch (pyStrip t.careersUrl),
             CrawlOp.jsonldScan (pyStrip t.careersUrl)] ++ r.2)))
    ∧ (∀ (O : CrawlOracles) (fb : Nat) (t : CrawlTarget),
      1 ≤ fb →
      (crawlOne O fb t).2.countP isLinkStep ≤ fb) := by
  refine ⟨?_, ?_, ?_, ?_, ?_⟩
  · intro O fb t s hda
    have hne : ¬ pyStrip t.careersUrl = "" := by
      intro he
      rw [he, detectAts_empty] at hda
      simp at hda
    simp only [crawlOne]
    rw [if_neg hne]
    simp only [hda]
  · intro O fb t s hda
    have hne : ¬ pyStrip t.careersUrl = "" := by
      intro he
      rw [he, detectAts_empty] at hda
      simp at hda
    simp only [crawlOne]
    rw [if_neg hne]
    simp only [hda]
  · intro O fb t html hda hne hht hje
    simp only [crawlOne]
    rw [if_neg hne]
    split
    · rename_i s heq
      rw [hda] at heq
      simp at heq
    · rename_i s heq
      rw [hda] at heq
      simp at heq
    · rw [hht]
      dsimp only
      rw [if_neg hje]
  · intro O fb t html hda hne hht hje
    simp only [crawlOne]
    rw [if_neg hne]
    split
    · rename_i s heq
      rw [hda] at heq
      simp at heq
    · rename_i s heq
      rw [hda] at heq
      simp at heq
    · rw [hht]
      dsimp only
      rw [if_pos hje]
  · intro O fb t hfb
    by_cases h0 : pyStrip t.careersUrl = ""
    · simp [crawlOne, h0]
    · simp only [crawlOne]
      rw [if_neg h0]
      split
      · simp [isLinkStep]
      · simp [isLinkStep]
      · split
        · simp [isLinkStep]
        · rename_i x1 heq1 x2 html heq2
          split
          · dsimp only
            have := followLinks_budget O (pyStrip t.company) fb
              (collectLinks O (pyStrip t.careersUrl) html) [] 0 [] (by omega)
            simp [List.countP_append, List.countP_cons, List.countP_nil,
              isLinkStep] at this ⊢
            omega
          · simp [isLinkStep]

def wCrawlO : CrawlOracles :=
  CrawlOracles.mk
    (fun _ => .ok (.arr []))
    (fun u => .ok (if u = "https://x.com/jobs" then "H" else "E"))
    (fun h => if h = "H" then [[("title", Jv.str "T")]] else [])
    (fun _ => [])
    (fun _ u => u)
    (fun _ => "")
    (fun _ => String.mk (List.replicate 40 'a'))
    (fun s => s)

/-- Witness for C7 at concrete oracles and targets. -/
theorem crawl_fallback_chain_witness :
    (detectAts (pyStrip "https://jobs.lever.co/acme") = ("lever", some "acme")
      ∧ crawlOne wCrawlO 2 ⟨"Acme", "https://jobs.lever.co/acme"⟩
          = (crawlLever wCrawlO "acme" (pyStrip "Acme"), [.leverApi "acme"]))
    ∧ (detectAts (pyStrip "https://boards.greenhouse.io/beta")
          = ("greenhouse", some "beta")
      ∧ crawlOne wCrawlO 2 ⟨"Beta", "https://boards.greenhouse.io/beta"⟩
          = (crawlGreenhouse wCrawlO "beta" (pyStrip "Beta"),
              [.greenhouseApi "beta"]))
    ∧ (detectAts (pyStrip "https://x.com/jobs") = ("unknown", none)
      ∧ ¬ pyStrip "https://x.com/jobs" = ""
      ∧ wCrawlO.fetchHtml (pyStrip "https://x.com/jobs") = .ok "H"
      ∧ ¬ (wCrawlO.extractJsonld "H").isEmpty = true
      ∧ crawlOne wCrawlO 2 ⟨"C", "https://x.com/jobs"⟩
          = (.ok ((wCrawlO.extractJsonld "H").map
              (postingToClean wCrawlO (pyStrip "C") (pyStrip "https://x.com/jobs"))),
            [.pageFetch (pyStrip "https://x.com/jobs"),
              .jsonldScan (pyStrip "https://x.com/jobs")]))
    ∧ (detectAts (pyStrip "https://y.com/careers") = ("unknown", none)
      ∧ ¬ pyStrip "https://y.com/careers" = ""
      ∧ wCrawlO.fetchHtml (pyStrip "https://y.com/careers") = .ok "E"
      ∧ (wCrawlO.extractJsonld "E").isEmpty = true
      ∧ crawlOne wCrawlO 2 ⟨"D", "https://y.com/careers"⟩
          = (let r := followLinks wCrawlO (pyStrip "D") 2 [] 0 []
              (collectLinks wCrawlO (pyStrip "https://y.com/careers") "E")
             (r.1, [CrawlOp.pageFetch (pyStrip "https://y.com/careers"),
               CrawlOp.jsonldScan (pyStrip "https://y.com/careers")] ++ r.2)))
    ∧ (1 ≤ 2
      ∧ (crawlOne wCrawlO 2 ⟨"C", "https://x.com/jobs"⟩).2.countP isLinkStep
          ≤ 2) :=
  ⟨⟨by decide, crawl_fallback_chain.1 wCrawlO 2
      ⟨"Acme", "https://jobs.lever.co/acme"⟩ "acme" (by decide)⟩,
    ⟨by decide, crawl_fallback_chain.2.1 wCrawlO 2
      ⟨"Beta", "https://boards.greenhouse.io/beta"⟩ "beta" (by decide)⟩,
    ⟨by decide, by decide, rfl, by decide,
      crawl_fallback_chain.2.2.1 wCrawlO 2 ⟨"C", "https://x.com/jobs"⟩ "H"
        (by decide) (by decide) rfl (by decide)⟩,
    ⟨by decide, by decide, rfl, by decide,
      crawl_fallback_chain.2.2.2.1 wCrawlO 2 ⟨"D", "https://y.com/careers"⟩ "E"
        (by decide) (by decide) rfl (by decide)⟩,
    ⟨by decide,
      crawl_fallback_chain.2.2.2.2 wCrawlO 2 ⟨"C", "https://x.com/jobs"⟩
        (by decide)⟩⟩

end CareerCoach
